import Mathlib

/-!
Shallow embedding of the RxR endpoint core (`src/prov/efa/src/rxr/rxr_ep.c`
of the libfabric EFA provider) and proofs of the spec's claims about it.

Modelling conventions:
* C unsigned integers are modelled as `Nat`; return codes (`int`/`ssize_t`)
  as `Int`.  Overflow is irrelevant at the magnitudes involved and is noted
  where a subtraction or addition could differ from machine arithmetic.
* Calls into other translation units (packet send/post routines, the
  completion handlers, `ofi_buf_alloc`) are represented by explicit result
  oracles or, where the spec is the only source, definitions marked
  "Modelled from the spec".
* Bit-flag fields (`peer->flags`, `rxr_flags`) are represented by named
  `Bool` fields.
-/

namespace Rxr

/-- Error codes from `fi_errno.h` (external interface constants; libfabric
error codes coincide with the POSIX errno values). -/
def FI_EAGAIN : Int := 11

/-- `FI_ENOMEM` errno value. -/
def FI_ENOMEM : Int := 12

/-- `FI_EINVAL` errno value. -/
def FI_EINVAL : Int := 22

/-- `FI_ENOPROTOOPT` errno value. -/
def FI_ENOPROTOOPT : Int := 92

/-- `FI_ECANCELED` errno value. -/
def FI_ECANCELED : Int := 125

/-- `ofi_div_ceil` from the ofi utility headers: ceiling division computed as
`(a + b - 1) / b` on unsigned integers. -/
def ofi_div_ceil (a b : Nat) : Nat := (a + b - 1) / b

/-! ### Credits: `rxr_ep_set_tx_credit_request` (rxr_ep.c:582-609) -/

/-- The fields of `struct rdm_peer` read and written by
`rxr_ep_set_tx_credit_request`: the peer's credit balance and its count of
outstanding hardware (EFA) TX operations. -/
structure RdmPeerCredit where
  tx_credits : Nat
  efa_outstanding_tx_ops : Nat
  deriving Repr, DecidableEq

/-- The fields of `struct rxr_tx_entry` involved in the credit request. -/
structure TxCredit where
  total_len : Nat
  credit_request : Nat
  deriving Repr, DecidableEq

/-- The configuration consulted by the credit computation:
`rxr_env.tx_min_credits` and `rxr_ep->max_data_payload_size`. -/
structure CreditEnv where
  tx_min_credits : Nat
  max_data_payload_size : Nat
  deriving Repr, DecidableEq

/-- `rxr_ep_set_tx_credit_request` (rxr_ep.c:582-609), translated line by
line: divide the peer's available credits among outstanding transfers plus
the new one, cap by the packets needed for the whole message, floor at
`rxr_env.tx_min_credits`, decrement the peer's balance only when it covers
the request, and fail with `-FI_EAGAIN` exactly when the request is zero.
Returns (return code, updated peer, updated tx entry). -/
def rxr_ep_set_tx_credit_request (env : CreditEnv) (peer : RdmPeerCredit)
    (tx : TxCredit) : Int × RdmPeerCredit × TxCredit :=
  let outstanding := peer.efa_outstanding_tx_ops + 1
  let req0 := min (ofi_div_ceil peer.tx_credits outstanding)
                  (ofi_div_ceil tx.total_len env.max_data_payload_size)
  let req := max req0 env.tx_min_credits
  let peer' := if req ≤ peer.tx_credits then
                 { peer with tx_credits := peer.tx_credits - req }
               else peer
  let tx' := { tx with credit_request := req }
  if req = 0 then (-FI_EAGAIN, peer', tx') else (0, peer', tx')

/-! ### Operation entry pools: `rxr_ep_alloc_rx_entry` / `rxr_ep_alloc_tx_entry` -/

/-- Modelled from the spec: the backing object pool (`ofi_bufpool` with
`max_cnt` fixed at creation, rxr_ep.c:1220-1247) lives in the ofi utility
code, which is not part of the excerpted source.  Spec §4.1/§4.2 give its
contract: `acquire -> Entry | EXHAUSTED` when the pool is empty, `release`
returns an entry.  The pool is a capacity and a count of entries in use. -/
structure OfiBufPool where
  max_cnt : Nat
  used : Nat
  deriving Repr, DecidableEq

/-- Modelled from the spec: `ofi_buf_alloc` returns an entry unless the pool
is exhausted (all `max_cnt` entries in use). -/
def ofi_buf_alloc (p : OfiBufPool) : Option OfiBufPool :=
  if p.used < p.max_cnt then some { p with used := p.used + 1 } else none

/-- Modelled from the spec: `ofi_buf_free` returns one entry to the pool. -/
def ofi_buf_free (p : OfiBufPool) : OfiBufPool := { p with used := p.used - 1 }

/-- Modelled from the spec: the receive-side state machine constants
(`enum rxr_rx_comm_type`) are declared in `rxr.h`, which is not part of the
excerpted source.  The source names `RXR_RX_FREE`, `RXR_RX_INIT`,
`RXR_RX_UNEXP`, `RXR_RX_MATCHED`, `RXR_RX_RECV` and `RXR_RX_QUEUED_CTRL`;
spec §4.2 orders the states `INIT -> UNEXPECTED -> MATCHED -> RECEIVING ->
QUEUED_CTRL*`.  A plain C enum numbers its members sequentially, so the
values are modelled as successive naturals starting from the free state. -/
def RXR_RX_FREE : Nat := 0

/-- `RXR_RX_INIT`: entry ready to receive. -/
def RXR_RX_INIT : Nat := 1

/-- `RXR_RX_UNEXP`: unexpected message waiting for a posted receive. -/
def RXR_RX_UNEXP : Nat := 2

/-- `RXR_RX_MATCHED`: entry matched with an incoming message. -/
def RXR_RX_MATCHED : Nat := 3

/-- `RXR_RX_RECV`: entry receiving data packets. -/
def RXR_RX_RECV : Nat := 4

/-- `RXR_RX_QUEUED_CTRL`: entry whose control packet could not be sent and
was queued (spec §4.2 places this state after RECEIVING). -/
def RXR_RX_QUEUED_CTRL : Nat := 5

/-- `RXR_TX_REQ` state value for tx entries: the state
`rxr_tx_entry_init` stores (rxr_ep.c:348).  Only its distinctness matters
here; it is modelled like the rx states. -/
def RXR_TX_REQ : Nat := 1

/-- The fields of `struct rxr_rx_entry` that `rxr_ep_alloc_rx_entry`
(rxr_ep.c:85-144) initializes and the claims consult. -/
structure RxEntryNew where
  state : Nat
  addr : Nat
  op : Nat
  deriving Repr, DecidableEq

/-- `rxr_ep_alloc_rx_entry` (rxr_ep.c:85-144): take an entry from
`ep->rx_entry_pool`; on exhaustion warn and return NULL (here `none`);
otherwise zero the entry and initialize it (`state = RXR_RX_INIT`, address,
operation).  The cq-flag switch and the peer-list insertion do not affect
the allocation contract and are not tracked. -/
def rxr_ep_alloc_rx_entry (pool : OfiBufPool) (addr : Nat) (op : Nat) :
    Option (OfiBufPool × RxEntryNew) :=
  match ofi_buf_alloc pool with
  | none => none
  | some pool' => some (pool', { state := RXR_RX_INIT, addr := addr, op := op })

/-- The fields of `struct rxr_tx_entry` that `rxr_tx_entry_init` sets and
the claims consult. -/
structure TxEntryNew where
  state : Nat
  addr : Nat
  op : Nat
  deriving Repr, DecidableEq

/-- `rxr_ep_alloc_tx_entry` (rxr_ep.c:425-447): take an entry from
`ep->tx_entry_pool`; on exhaustion warn and return NULL (here `none`);
otherwise initialize it via `rxr_tx_entry_init` (`state = RXR_TX_REQ`,
address, operation). -/
def rxr_ep_alloc_tx_entry (pool : OfiBufPool) (addr : Nat) (op : Nat) :
    Option (OfiBufPool × TxEntryNew) :=
  match ofi_buf_alloc pool with
  | none => none
  | some pool' => some (pool', { state := RXR_TX_REQ, addr := addr, op := op })

/-! ### Endpoint options: `rxr_ep_getopt` / `rxr_ep_setopt` (rxr_ep.c:1052-1082) -/

/-- `FI_OPT_ENDPOINT` from `enum fi_opt_level` in fabric.h (external
constant; only its identity matters). -/
def FI_OPT_ENDPOINT : Int := 0

/-- `FI_OPT_MIN_MULTI_RECV` from `enum fi_opt_name` in fabric.h. -/
def FI_OPT_MIN_MULTI_RECV : Int := 0

/-- `sizeof(size_t)` on the target platform (64-bit). -/
def sizeof_size_t : Nat := 8

/-- The endpoint field the option accessors touch. -/
structure RxrEpOpt where
  min_multi_recv_size : Nat
  deriving Repr, DecidableEq

/-- `rxr_ep_getopt` (rxr_ep.c:1052-1065): any (level, name) other than
(`FI_OPT_ENDPOINT`, `FI_OPT_MIN_MULTI_RECV`) is `-FI_ENOPROTOOPT`; otherwise
write the stored value to `*optval` and `sizeof(size_t)` to `*optlen`.
The outputs are returned as an optional pair (value, optlen). -/
def rxr_ep_getopt (ep : RxrEpOpt) (level optname : Int) :
    Int × Option (Nat × Nat) :=
  if level ≠ FI_OPT_ENDPOINT ∨ optname ≠ FI_OPT_MIN_MULTI_RECV then
    (-FI_ENOPROTOOPT, none)
  else
    (0, some (ep.min_multi_recv_size, sizeof_size_t))

/-- `rxr_ep_setopt` (rxr_ep.c:1067-1082): reject unknown options with
`-FI_ENOPROTOOPT`, reject `optlen < sizeof(size_t)` with `-FI_EINVAL`,
otherwise store the value.  Returns (code, updated endpoint). -/
def rxr_ep_setopt (ep : RxrEpOpt) (level optname : Int) (optval : Nat)
    (optlen : Nat) : Int × RxrEpOpt :=
  if level ≠ FI_OPT_ENDPOINT ∨ optname ≠ FI_OPT_MIN_MULTI_RECV then
    (-FI_ENOPROTOOPT, ep)
  else if optlen < sizeof_size_t then
    (-FI_EINVAL, ep)
  else
    (0, { ep with min_multi_recv_size := optval })

/-! ### Bulk receive-buffer posting (rxr_ep.c:227-338)

`rxr_ep_post_internal_rx_pkt` allocates a packet from the RX pool and posts
it with `fi_recvmsg`; both the allocation and the post happen in other
translation units, so one post is represented by its result code, supplied
by the oracle `post : Nat -> Int` indexed by the loop counter.  Whether the
`FI_MORE` batching hint was passed is recorded as a `Bool` alongside the
index of each attempted post. -/

/-- The loop body of `rxr_ep_bulk_post_internal_rx_pkts` with loop index
`i` and `rem = nrecv - i` iterations left (structural recursion on the
remaining count): `flags` is `FI_MORE` until the iteration `i = nrecv - 1`
sets it to 0; the loop stops at the first post that fails and returns that
error.  Returns (list of (index, FI_MORE passed), return code). -/
def bulkPostLoop (post : Nat → Int) (nrecv : Nat) : Nat → Nat → List (Nat × Bool) × Int
  | 0, _ => ([], 0)
  | rem + 1, i =>
    let more : Bool := i ≠ nrecv - 1
    let err := post i
    if err ≠ 0 then ([(i, more)], err)
    else
      let rest := bulkPostLoop post nrecv rem (i + 1)
      ((i, more) :: rest.1, rest.2)

/-- `rxr_ep_bulk_post_internal_rx_pkts` (rxr_ep.c:319-338): run the posting
loop for `i = 0 .. nrecv - 1`. -/
def rxr_ep_bulk_post_internal_rx_pkts (post : Nat → Int) (nrecv : Nat) :
    List (Nat × Bool) × Int :=
  bulkPostLoop post nrecv nrecv 0

/-! ### Receive-buffer replenishment (rxr_ep.c:1490-1579) -/

/-- Parameters of `rxr_ep_progress_post_internal_rx_pkts` that live outside
the counters: the endpoint mode flags, the pool chunk counts used on the
first invocation, and the result of the (external) pool-growing call. -/
structure RxPostParams where
  use_zcpy_rx : Bool
  use_shm : Bool
  rx_pool_chunk_cnt : Nat
  shm_rx_size : Nat
  grow_result : Int
  deriving Repr, DecidableEq

/-- The endpoint counters `rxr_ep_progress_post_internal_rx_pkts` reads and
writes. -/
structure RxPostSt where
  efa_rx_pkts_posted : Nat
  efa_rx_pkts_to_post : Nat
  shm_rx_pkts_posted : Nat
  shm_rx_pkts_to_post : Nat
  available_data_bufs : Nat
  deriving Repr, DecidableEq

/-- Result of one replenishment step: updated counters, the EFA posts
attempted (index, FI_MORE hint), the SHM posts attempted, and the error
delivered to `err_exit` (0 when none). -/
structure RxPostRes where
  st : RxPostSt
  efa_posts : List (Nat × Bool)
  shm_posts : List (Nat × Bool)
  err : Int
  deriving Repr, DecidableEq

/-- Number of successful posts in a bulk-post attempt list with final
result `err`: all attempts succeeded except the last one when `err ≠ 0`. -/
def postedCount (attempts : List (Nat × Bool)) (err : Int) : Nat :=
  if err = 0 then attempts.length else attempts.length - 1

/-- `rxr_ep_progress_post_internal_rx_pkts` (rxr_ep.c:1490-1579).  In
zero-copy-receive mode: schedule one internal buffer when none are posted
and none are pending, and drop the pending count when buffers are already
posted.  Otherwise, on the first invocation (both counters zero) grow the
RX packet pools (external call, result `P.grow_result`) and schedule a full
chunk for EFA and, with SHM enabled, for SHM.  Then bulk-post the scheduled
EFA buffers followed by the scheduled SHM buffers, resetting each pending
counter after a successful bulk post; any failure goes to `err_exit`, which
writes an endpoint error and returns without resetting the pending counter.
Each successful post increments the corresponding `.._rx_pkts_posted`
counter (rxr_ep.c:296,279). -/
def rxr_ep_progress_post_internal_rx_pkts (P : RxPostParams)
    (post shmPost : Nat → Int) (st : RxPostSt) : RxPostRes :=
  let st :=
    if P.use_zcpy_rx then
      if st.efa_rx_pkts_posted = 0 ∧ st.efa_rx_pkts_to_post = 0 then
        { st with efa_rx_pkts_to_post := 1 }
      else if st.efa_rx_pkts_posted > 0 ∧ st.efa_rx_pkts_to_post > 0 then
        { st with efa_rx_pkts_to_post := 0 }
      else st
    else
      if st.efa_rx_pkts_posted = 0 ∧ st.efa_rx_pkts_to_post = 0 then
        { st with efa_rx_pkts_to_post := P.rx_pool_chunk_cnt,
                  available_data_bufs := P.rx_pool_chunk_cnt,
                  shm_rx_pkts_to_post :=
                    if P.use_shm then P.shm_rx_size else st.shm_rx_pkts_to_post }
      else st
  -- first-invocation pool growth failure: err_exit before any posting
  if ¬P.use_zcpy_rx ∧ st.efa_rx_pkts_posted = 0 ∧ P.grow_result ≠ 0 ∧
      st.efa_rx_pkts_to_post = P.rx_pool_chunk_cnt then
    { st := st, efa_posts := [], shm_posts := [], err := P.grow_result }
  else
    let efa := rxr_ep_bulk_post_internal_rx_pkts post st.efa_rx_pkts_to_post
    let st := { st with efa_rx_pkts_posted :=
                  st.efa_rx_pkts_posted + postedCount efa.1 efa.2 }
    if efa.2 ≠ 0 then
      { st := st, efa_posts := efa.1, shm_posts := [], err := efa.2 }
    else
      let st := { st with efa_rx_pkts_to_post := 0 }
      if P.use_shm then
        let shm := rxr_ep_bulk_post_internal_rx_pkts shmPost st.shm_rx_pkts_to_post
        let st := { st with shm_rx_pkts_posted :=
                      st.shm_rx_pkts_posted + postedCount shm.1 shm.2 }
        if shm.2 ≠ 0 then
          { st := st, efa_posts := efa.1, shm_posts := shm.1, err := shm.2 }
        else
          { st := { st with shm_rx_pkts_to_post := 0 },
            efa_posts := efa.1, shm_posts := shm.1, err := 0 }
      else
        { st := st, efa_posts := efa.1, shm_posts := [], err := 0 }

/-! ### Receive cancellation (rxr_ep.c:967-1050)

The multi-recv bookkeeping branch (rxr_ep.c:997-1014) only adjusts
multi-recv consumer linkage through `rxr_msg_multi_recv_handle_completion`
(another translation unit) and is outside every claim; the embedding covers
receives posted without `FI_MULTI_RECV`. -/

/-- The fields of `struct rxr_rx_entry` that `rxr_ep_cancel_recv` reads and
writes: the user context used for matching, the protocol state, the
`RXR_RECV_CANCEL` bit of `rxr_flags`, and the completion fields copied into
the error entry. -/
structure CancelRxEntry where
  op_context : Nat
  state : Nat
  recv_cancel : Bool
  tag : Nat
  cq_flags : Nat
  deriving Repr, DecidableEq

/-- The fields of `struct fi_cq_err_entry` that `rxr_ep_cancel_recv`
fills in before `ofi_cq_write_error`. -/
structure CancelErrEntry where
  op_context : Nat
  flags : Nat
  tag : Nat
  err : Int
  deriving Repr, DecidableEq

/-- `dlist_remove_first_match` with `rxr_ep_cancel_match_recv`
(rxr_ep.c:967-974,987-989): remove and return the first entry of the list
whose `cq_entry.op_context` equals the given context. -/
def removeFirstMatch (l : List CancelRxEntry) (context : Nat) :
    Option (CancelRxEntry × List CancelRxEntry) :=
  match l with
  | [] => none
  | e :: rest =>
    if e.op_context = context then some (e, rest)
    else match removeFirstMatch rest context with
      | none => none
      | some (f, rest') => some (f, e :: rest')

/-- Result of `rxr_ep_cancel_recv`: the receive list afterwards, whether a
match was found, the matched entry after the `RXR_RECV_CANCEL` mark (kept
alive only when not released), whether the entry was released, and the
error completion written. -/
structure CancelResult where
  list : List CancelRxEntry
  found : Bool
  marked : Option CancelRxEntry
  released : Bool
  err_written : Option CancelErrEntry
  deriving Repr, DecidableEq

/-- `rxr_ep_cancel_recv` (rxr_ep.c:976-1035): remove the first entry of the
list matching the context (no match: return 0 with nothing written); set
its `RXR_RECV_CANCEL` flag; build an error completion carrying the entry's
original user context, its cq flags, its tag and `FI_ECANCELED`; release
the entry iff `state & (RXR_RX_INIT | RXR_RX_UNEXP | RXR_RX_MATCHED)` is
nonzero (the bitwise test from line 1032); always write the error
completion. -/
def rxr_ep_cancel_recv (recv_list : List CancelRxEntry) (context : Nat) :
    CancelResult :=
  match removeFirstMatch recv_list context with
  | none =>
    { list := recv_list, found := false, marked := none,
      released := false, err_written := none }
  | some (e, rest) =>
    let e := { e with recv_cancel := true }
    let err : CancelErrEntry :=
      { op_context := e.op_context, flags := e.cq_flags, tag := e.tag,
        err := FI_ECANCELED }
    let rel := e.state &&& (RXR_RX_INIT ||| RXR_RX_UNEXP ||| RXR_RX_MATCHED) ≠ 0
    { list := rest, found := true,
      marked := if rel then none else some e,
      released := rel, err_written := some err }

/-! ### The progress engine: `rxr_ep_progress_internal` (rxr_ep.c:1813-2068)

The tick is embedded as a pure function over an endpoint state, emitting a
trace of events: one phase marker per step reached, and one send event per
send attempted.  The packet-level send routines
(`rxr_pkt_post_handshake`, `rxr_ep_send_queued_pkts` internals,
`rxr_pkt_post_ctrl`, `rxr_pkt_post_data`, `rxr_read_post`) live in other
translation units; each call is represented by one oracle consultation
`O k` where `k` is a running attempt counter, yielding success (with the
data size sent, for data packets), `-FI_EAGAIN`, or a hard error.  The two
completion-queue polls dispatch completions through handlers that are also
external; the tick state is taken as of after polling, and the polls
contribute only their phase markers. -/

/-- The per-peer fields of `struct rdm_peer` the progress engine consults:
the `RXR_PEER_IN_BACKOFF`, `RXR_PEER_HANDSHAKE_QUEUED` and
`RXR_PEER_HANDSHAKE_SENT` bits of `peer->flags`, and the backoff timer
(`rnr_backoff_begin_ts`, `rnr_backoff_wait_time`). -/
structure RdmPeer where
  in_backoff : Bool
  handshake_queued : Bool
  handshake_sent : Bool
  backoff_begin : Nat
  backoff_wait : Nat
  deriving Repr, DecidableEq

/-- An entry on one of the four queued-retransmission lists
(`rx_entry_queued_rnr_list`, `rx_entry_queued_ctrl_list`,
`tx_entry_queued_rnr_list`, `tx_entry_queued_ctrl_list`): its identity and
its destination address. -/
structure QEntry where
  id : Nat
  addr : Nat
  deriving Repr, DecidableEq

/-- An entry on `tx_pending_list`: identity, destination, remaining send
window and the `FI_MORE` bit of `send_flags`. -/
structure TxPend where
  id : Nat
  addr : Nat
  window : Nat
  send_more : Bool
  deriving Repr, DecidableEq

/-- An entry on `read_pending_list`. -/
structure ReadPend where
  id : Nat
  addr : Nat
  deriving Repr, DecidableEq

/-- Result of one oracled send attempt: success (`sz` encodes, for data
packets, a device-chosen payload size, see `dataSendInner`), transient
`-FI_EAGAIN`, or a hard error. -/
inductive SendRes where
  | ok (sz : Nat)
  | eagain
  | fail
  deriving Repr, DecidableEq

/-- The steps of one progress tick that the spec names. -/
inductive Phase where
  | pollEfa
  | pollShm
  | postRx
  | backoffCheck
  | handshakeDrain
  | rxRnrDrain
  | rxCtrlDrain
  | txRnrDrain
  | txCtrlDrain
  | dataSend
  | readSubmit
  | flushWr
  deriving Repr, DecidableEq

/-- The kind of a non-data send attempt. -/
inductive SendKind where
  | handshake
  | rxRnr
  | rxCtrl
  | txRnr
  | txCtrl
  | readReq
  deriving Repr, DecidableEq

/-- Trace events of one tick: a phase marker, a non-data send attempt with
its oracle result, or a data-packet post carrying a snapshot of the
entry's window and the endpoint's outstanding-op counter at post time. -/
inductive Ev where
  | ph (p : Phase)
  | send (k : SendKind) (addr : Nat) (r : SendRes)
  | data (addr win outst : Nat) (r : SendRes)
  deriving Repr, DecidableEq

/-- The peer a send-attempt event targets (phase markers target nobody). -/
def Ev.target : Ev → Option Nat
  | .ph _ => none
  | .send _ a _ => some a
  | .data a _ _ _ => some a

/-- Whether an event is a phase marker. -/
def Ev.isPh : Ev → Bool
  | .ph _ => true
  | _ => false

/-- The phase markers of a trace. -/
def phasesOf (evs : List Ev) : List Phase :=
  evs.filterMap fun e => match e with | .ph p => some p | _ => none

/-- How a loop of the tick ended: ran through its list, stopped early on
`-FI_EAGAIN` (`break`), or hit a hard error (`return` from the tick). -/
inductive Ctl where
  | cont
  | stop
  | abort
  deriving Repr, DecidableEq

/-- How the data-sending walk ended: ran through, jumped to the `out:`
label (TX queue full or `-FI_EAGAIN`), or hit a hard error (`return`). -/
inductive DCtl where
  | normal
  | out
  | abort
  deriving Repr, DecidableEq

/-- Pointwise update of the peer table. -/
def updPeer (peers : Nat → RdmPeer) (a : Nat) (p : RdmPeer) : Nat → RdmPeer :=
  fun x => if x = a then p else peers x

/-- `rxr_ep_check_peer_backoff_timer` (rxr_ep.c:1628-1644): walk the
backoff list; every peer whose wait interval has elapsed
(`ofi_gettime_us() >= rnr_backoff_begin_ts + rnr_backoff_wait_time`) has
its `RXR_PEER_IN_BACKOFF` flag cleared and is removed from the list.
Returns the updated peer table and the remaining backoff list. -/
def rxr_ep_check_peer_backoff_timer (now : Nat) (peers : Nat → RdmPeer) :
    List Nat → (Nat → RdmPeer) × List Nat
  | [] => (peers, [])
  | a :: rest =>
    if (peers a).backoff_begin + (peers a).backoff_wait ≤ now then
      let peers' := updPeer peers a { peers a with in_backoff := false }
      rxr_ep_check_peer_backoff_timer now peers' rest
    else
      let r := rxr_ep_check_peer_backoff_timer now peers rest
      (r.1, a :: r.2)

/-- Result of the handshake drain: remaining handshake-queued list, updated
peer table, events, next oracle counter, and how the loop ended. -/
structure HsRes where
  remaining : List Nat
  peers : Nat → RdmPeer
  evs : List Ev
  k : Nat
  ctl : Ctl

/-- The handshake-retransmission drain (rxr_ep.c:1842-1863): for each peer
on `handshake_queued_peer_list`, skip it while it is in backoff; otherwise
post a handshake (`rxr_pkt_post_handshake`, oracled).  `-FI_EAGAIN` breaks
out of the loop; any other failure writes an endpoint error and returns
from the tick; success removes the peer from the list, clears its
`RXR_PEER_HANDSHAKE_QUEUED` flag and sets `RXR_PEER_HANDSHAKE_SENT`. -/
def drainHandshake (O : Nat → SendRes) (peers : Nat → RdmPeer) (k : Nat) :
    List Nat → HsRes
  | [] => ⟨[], peers, [], k, .cont⟩
  | a :: rest =>
    if (peers a).in_backoff then
      let r := drainHandshake O peers k rest
      ⟨a :: r.remaining, r.peers, r.evs, r.k, r.ctl⟩
    else
      match O k with
      | .eagain => ⟨a :: rest, peers, [.send .handshake a .eagain], k + 1, .stop⟩
      | .fail => ⟨a :: rest, peers, [.send .handshake a .fail], k + 1, .abort⟩
      | .ok sz =>
        let peers' := updPeer peers a
          { peers a with handshake_queued := false, handshake_sent := true }
        let r := drainHandshake O peers' (k + 1) rest
        ⟨r.remaining, r.peers, .send .handshake a (.ok sz) :: r.evs, r.k, r.ctl⟩

/-- Result of a queued-list drain: remaining list, events, next oracle
counter, and how the loop ended. -/
structure DrainRes where
  remaining : List QEntry
  evs : List Ev
  k : Nat
  ctl : Ctl
  deriving Repr, DecidableEq

/-- The common shape of the four queued-list drains of the tick
(rxr_ep.c:1868-1984): walk the list; skip entries whose peer is in backoff
(they stay queued); otherwise attempt the send — for the RNR lists one
`rxr_ep_send_queued_pkts` call draining the entry's queued packets, for the
ctrl lists one `rxr_pkt_post_ctrl` call — represented by one oracle
consultation.  `-FI_EAGAIN` breaks out of the loop with the entry still
queued; a hard error writes a cq error and returns from the tick; success
removes the entry from the list (for a ctrl post that released the entry,
`rxr_pkt_post_ctrl` already removed it — either way it leaves the list). -/
def drainQueued (kind : SendKind) (O : Nat → SendRes) (peers : Nat → RdmPeer)
    (k : Nat) : List QEntry → DrainRes
  | [] => ⟨[], [], k, .cont⟩
  | e :: rest =>
    if (peers e.addr).in_backoff then
      let r := drainQueued kind O peers k rest
      ⟨e :: r.remaining, r.evs, r.k, r.ctl⟩
    else
      match O k with
      | .eagain => ⟨e :: rest, [.send kind e.addr .eagain], k + 1, .stop⟩
      | .fail => ⟨e :: rest, [.send kind e.addr .fail], k + 1, .abort⟩
      | .ok sz =>
        let r := drainQueued kind O peers (k + 1) rest
        ⟨r.remaining, .send kind e.addr (.ok sz) :: r.evs, r.k, r.ctl⟩

/-- Result of the per-entry data-send loop: the entry's window and
`FI_MORE` bit afterwards, the outstanding-op counter, events, next oracle
counter, and how the loop ended (`.normal` covers both the `window = 0`
exit and the in-backoff `break`, which just move to the next entry). -/
structure InnerRes where
  window : Nat
  send_more : Bool
  outst : Nat
  evs : List Ev
  k : Nat
  ctl : DCtl

/-- The inner `while (tx_entry->window > 0)` loop of the data-send walk
(rxr_ep.c:2002-2025), fuel-indexed (the fuel is the entry's window on
entry; each successful post consumes at least one byte of window, so the
loop runs at most `window` times — a zero `max_data_payload_size`, under
which the C loop would not terminate, only exhausts the fuel).  Each
iteration: clear `FI_MORE` when at most one op slot is left or at most one
packet's worth of window remains; jump to `out:` when the TX queue is full
(`efa_outstanding_tx_ops == efa_max_outstanding_tx_ops`); break when the
peer entered backoff; otherwise post one data packet
(`rxr_pkt_post_data`, oracled: on success the device accepted
`min (sz + 1) (min window mps)` bytes — positive and never exceeding the
window or `max_data_payload_size` — the window shrinks by that amount and
the outstanding-op counter grows by one; `-FI_EAGAIN` clears `FI_MORE` and
jumps to `out:`; a hard error writes a cq error and returns). -/
def dataSendInner (peers : Nat → RdmPeer) (mps maxo : Nat) (O : Nat → SendRes)
    (addr : Nat) : Nat → Nat → Bool → Nat → Nat → InnerRes
  | 0, window, more, outst, k => ⟨window, more, outst, [], k, .normal⟩
  | fuel + 1, window, more, outst, k =>
    if window = 0 then ⟨window, more, outst, [], k, .normal⟩
    else
      let more := if maxo - outst ≤ 1 ∨ window ≤ mps then false else more
      if outst = maxo then ⟨window, more, outst, [], k, .out⟩
      else if (peers addr).in_backoff then ⟨window, more, outst, [], k, .normal⟩
      else
        match O k with
        | .eagain => ⟨window, false, outst, [.data addr window outst .eagain], k + 1, .out⟩
        | .fail => ⟨window, false, outst, [.data addr window outst .fail], k + 1, .abort⟩
        | .ok sz =>
          let ds := min (sz + 1) (min window mps)
          let r := dataSendInner peers mps maxo O addr fuel (window - ds) more
                     (outst + 1) (k + 1)
          ⟨r.window, r.send_more, r.outst, .data addr window outst (.ok sz) :: r.evs,
           r.k, r.ctl⟩

/-- Result of the data-send walk: the pending list afterwards (windows and
flags updated; entries the walk never reached unchanged), the
outstanding-op counter, events, next oracle counter, and how the walk
ended. -/
structure WalkRes where
  pending : List TxPend
  outst : Nat
  evs : List Ev
  k : Nat
  ctl : DCtl

/-- The data-send walk over `tx_pending_list` (rxr_ep.c:1989-2026): for
each entry, skip it when its peer is in backoff or its window is zero
(the entry stays pending); otherwise set `FI_MORE` in `send_flags` and run
the inner send loop; a jump to `out:` or a hard error inside the inner
loop ends the walk for every remaining entry. -/
def dataSendWalk (peers : Nat → RdmPeer) (mps maxo : Nat) (O : Nat → SendRes)
    (outst k : Nat) : List TxPend → WalkRes
  | [] => ⟨[], outst, [], k, .normal⟩
  | t :: rest =>
    if (peers t.addr).in_backoff then
      let r := dataSendWalk peers mps maxo O outst k rest
      ⟨t :: r.pending, r.outst, r.evs, r.k, r.ctl⟩
    else if t.window = 0 then
      let r := dataSendWalk peers mps maxo O outst k rest
      ⟨t :: r.pending, r.outst, r.evs, r.k, r.ctl⟩
    else
      let i := dataSendInner peers mps maxo O t.addr t.window t.window true outst k
      let t' := { t with window := i.window, send_more := i.send_more }
      match i.ctl with
      | .normal =>
        let r := dataSendWalk peers mps maxo O i.outst i.k rest
        ⟨t' :: r.pending, r.outst, i.evs ++ r.evs, r.k, r.ctl⟩
      | .out => ⟨t' :: rest, i.outst, i.evs, i.k, .out⟩
      | .abort => ⟨t' :: rest, i.outst, i.evs, i.k, .abort⟩

/-- Result of the read-submission walk. -/
structure ReadRes where
  pending : List ReadPend
  evs : List Ev
  k : Nat
  ctl : DCtl

/-- The read-submission walk over `read_pending_list` (rxr_ep.c:2031-2057):
skip entries whose peer is in backoff; jump to `out:` when the TX queue is
full; otherwise submit the read (`rxr_read_post`, oracled) — `-FI_EAGAIN`
breaks the loop, a hard error writes a cq error and returns, success marks
the entry submitted and removes it from the pending list.  The
outstanding-op counter is read but the submission accounting
(`rxr_ep_record_tx_op_submitted`) happens inside `rxr_read_post` in
another translation unit; `outst` is threaded unchanged, which only makes
the full-queue stop easier to reach than in the source, never harder. -/
def readSubmitWalk (peers : Nat → RdmPeer) (maxo : Nat) (O : Nat → SendRes)
    (outst k : Nat) : List ReadPend → ReadRes
  | [] => ⟨[], [], k, .normal⟩
  | e :: rest =>
    if (peers e.addr).in_backoff then
      let r := readSubmitWalk peers maxo O outst k rest
      ⟨e :: r.pending, r.evs, r.k, r.ctl⟩
    else if outst = maxo then ⟨e :: rest, [], k, .out⟩
    else
      match O k with
      | .eagain => ⟨e :: rest, [.send .readReq e.addr .eagain], k + 1, .normal⟩
      | .fail => ⟨e :: rest, [.send .readReq e.addr .fail], k + 1, .abort⟩
      | .ok sz =>
        let r := readSubmitWalk peers maxo O outst (k + 1) rest
        ⟨r.pending, .send .readReq e.addr (.ok sz) :: r.evs, r.k, r.ctl⟩

/-- The endpoint state the progress tick reads and writes.  `now` is the
value `ofi_gettime_us()` returns during this tick. -/
structure EpSt where
  now : Nat
  use_shm : Bool
  use_zcpy_rx : Bool
  peers : Nat → RdmPeer
  peer_backoff_list : List Nat
  handshake_queued_list : List Nat
  rx_queued_rnr : List QEntry
  rx_queued_ctrl : List QEntry
  tx_queued_rnr : List QEntry
  tx_queued_ctrl : List QEntry
  tx_pending : List TxPend
  read_pending : List ReadPend
  efa_outstanding_tx_ops : Nat
  efa_max_outstanding_tx_ops : Nat
  max_data_payload_size : Nat
  rx_cnt : RxPostSt
  rx_params : RxPostParams
  has_batched_wr : Bool

/-- Result of one tick: final state, trace, and how the data-send walk
ended (recorded so the claims can refer to the TX-queue-full stop). -/
structure TickRes where
  st : EpSt
  evs : List Ev
  data_ctl : DCtl

/-- The tail of the tick from the read-submission walk on (rxr_ep.c:
2031-2065): run the walk; a hard error returns from the tick (skipping
the flush), otherwise fall through to the `out:` label, where the batched
send descriptors accumulated during the tick are flushed. -/
def progressStageRead (O : Nat → SendRes) (k : Nat) (st : EpSt) : TickRes :=
  let r := readSubmitWalk st.peers st.efa_max_outstanding_tx_ops O
             st.efa_outstanding_tx_ops k st.read_pending
  let st' := { st with read_pending := r.pending }
  if r.ctl = .abort then ⟨st', Ev.ph .readSubmit :: r.evs, .normal⟩
  else ⟨st', Ev.ph .readSubmit :: r.evs ++ [Ev.ph .flushWr], .normal⟩

/-- The tail of the tick from the data-send walk on (rxr_ep.c:1989-2065):
run the walk; a hard error returns from the tick, a jump to `out:`
(TX queue full or `-FI_EAGAIN`) skips the read-submission walk and goes
straight to the flush, and otherwise the read-submission stage follows. -/
def progressStageData (O : Nat → SendRes) (k : Nat) (st : EpSt) : TickRes :=
  let w := dataSendWalk st.peers st.max_data_payload_size
             st.efa_max_outstanding_tx_ops O st.efa_outstanding_tx_ops k
             st.tx_pending
  let st' := { st with tx_pending := w.pending, efa_outstanding_tx_ops := w.outst }
  match w.ctl with
  | .abort => ⟨st', Ev.ph .dataSend :: w.evs, .abort⟩
  | .out => ⟨st', Ev.ph .dataSend :: w.evs ++ [Ev.ph .flushWr], .out⟩
  | .normal =>
    let r := progressStageRead O w.k st'
    ⟨r.st, Ev.ph .dataSend :: w.evs ++ r.evs, r.data_ctl⟩

/-- The tail of the tick from the tx queued-ctrl drain on
(rxr_ep.c:1959-1984): a hard error in the drain returns from the tick;
otherwise the data-send stage follows. -/
def progressStageTxCtrl (O : Nat → SendRes) (k : Nat) (st : EpSt) : TickRes :=
  let d := drainQueued .txCtrl O st.peers k st.tx_queued_ctrl
  let st' := { st with tx_queued_ctrl := d.remaining }
  if d.ctl = .abort then ⟨st', Ev.ph .txCtrlDrain :: d.evs, .normal⟩
  else
    let r := progressStageData O d.k st'
    ⟨r.st, Ev.ph .txCtrlDrain :: d.evs ++ r.evs, r.data_ctl⟩

/-- The tail of the tick from the tx queued-RNR drain on
(rxr_ep.c:1936-1957). -/
def progressStageTxRnr (O : Nat → SendRes) (k : Nat) (st : EpSt) : TickRes :=
  let d := drainQueued .txRnr O st.peers k st.tx_queued_rnr
  let st' := { st with tx_queued_rnr := d.remaining }
  if d.ctl = .abort then ⟨st', Ev.ph .txRnrDrain :: d.evs, .normal⟩
  else
    let r := progressStageTxCtrl O d.k st'
    ⟨r.st, Ev.ph .txRnrDrain :: d.evs ++ r.evs, r.data_ctl⟩

/-- The tail of the tick from the rx queued-ctrl drain on
(rxr_ep.c:1893-1934). -/
def progressStageRxCtrl (O : Nat → SendRes) (k : Nat) (st : EpSt) : TickRes :=
  let d := drainQueued .rxCtrl O st.peers k st.rx_queued_ctrl
  let st' := { st with rx_queued_ctrl := d.remaining }
  if d.ctl = .abort then ⟨st', Ev.ph .rxCtrlDrain :: d.evs, .normal⟩
  else
    let r := progressStageTxRnr O d.k st'
    ⟨r.st, Ev.ph .rxCtrlDrain :: d.evs ++ r.evs, r.data_ctl⟩

/-- The tail of the tick from the rx queued-RNR drain on
(rxr_ep.c:1868-1891). -/
def progressStageRxRnr (O : Nat → SendRes) (k : Nat) (st : EpSt) : TickRes :=
  let d := drainQueued .rxRnr O st.peers k st.rx_queued_rnr
  let st' := { st with rx_queued_rnr := d.remaining }
  if d.ctl = .abort then ⟨st', Ev.ph .rxRnrDrain :: d.evs, .normal⟩
  else
    let r := progressStageRxCtrl O d.k st'
    ⟨r.st, Ev.ph .rxRnrDrain :: d.evs ++ r.evs, r.data_ctl⟩

/-- The tail of the tick from the handshake drain on (rxr_ep.c:1842-1863):
a hard error posting a handshake writes an endpoint error and returns
from the tick; otherwise the queued-list drains follow. -/
def progressStageHandshake (O : Nat → SendRes) (st : EpSt) : TickRes :=
  let hs := drainHandshake O st.peers 0 st.handshake_queued_list
  let st' := { st with peers := hs.peers, handshake_queued_list := hs.remaining }
  if hs.ctl = .abort then ⟨st', Ev.ph .handshakeDrain :: hs.evs, .normal⟩
  else
    let r := progressStageRxRnr O hs.k st'
    ⟨r.st, Ev.ph .handshakeDrain :: hs.evs ++ r.evs, r.data_ctl⟩

/-- One tick of `rxr_ep_progress_internal` (rxr_ep.c:1813-2068), with the
steps in source order: the available-data-bufs timer (not in zcpy mode,
line 1824; it touches only `available_data_bufs`, whose reset is modelled
in `rxr_ep_check_available_data_bufs_timer` separately and is irrelevant
to every claim, so it is elided here), the EFA cq poll (bounded by
`rxr_env.efa_cq_read_size`, modelled by `rdm_ep_poll_ibv_cq_calls`), the
SHM cq poll when SHM is enabled (bounded by `rxr_env.shm_cq_read_size`) —
both polls dispatch completions through handlers in other translation
units, so the tick state is taken as of after polling and the polls
contribute their phase markers — then internal receive-buffer
replenishment, the peer-backoff timer scan, and the drain/send stages. -/
def rxr_ep_progress_internal (st : EpSt) (O : Nat → SendRes)
    (postO shmPostO : Nat → Int) : TickRes :=
  let evs0 := [Ev.ph .pollEfa] ++ (if st.use_shm then [Ev.ph .pollShm] else []) ++
    [Ev.ph .postRx]
  let rx := rxr_ep_progress_post_internal_rx_pkts st.rx_params postO shmPostO st.rx_cnt
  let st := { st with rx_cnt := rx.st }
  let bo := rxr_ep_check_peer_backoff_timer st.now st.peers st.peer_backoff_list
  let st := { st with peers := bo.1, peer_backoff_list := bo.2 }
  let r := progressStageHandshake O st
  ⟨r.st, evs0 ++ [Ev.ph .backoffCheck] ++ r.evs, r.data_ctl⟩

/-- Result of one `ibv_poll_cq` consultation in `rdm_ep_poll_ibv_cq`
(rxr_ep.c:1652-1720): no completion available (`ret == 0`), a good
completion (dispatched and the loop continues), or a poll/status error
(handled and the function returns). -/
inductive IbvPollRes where
  | empty
  | good
  | bad
  deriving Repr, DecidableEq

/-- The number of `ibv_poll_cq` calls made by `rdm_ep_poll_ibv_cq`
(rxr_ep.c:1667-1719) given the per-iteration completion-queue behavior
`c` and `cqe_to_process` iterations remaining: the loop polls once per
iteration, returning early when the queue is empty or a poll/status error
is handled. -/
def rdm_ep_poll_ibv_cq_calls (c : Nat → IbvPollRes) : Nat → Nat → Nat
  | 0, _ => 0
  | n + 1, i =>
    match c i with
    | .good => 1 + rdm_ep_poll_ibv_cq_calls c n (i + 1)
    | _ => 1

/-- The phase order spec §4.4 prescribes for one tick (for the phases the
claims name; the poll markers stand at the head, the flush at the foot). -/
def canonicalPhases : List Phase :=
  [.pollEfa, .pollShm, .postRx, .backoffCheck, .handshakeDrain,
   .rxRnrDrain, .rxCtrlDrain, .txRnrDrain, .txCtrlDrain, .dataSend,
   .readSubmit, .flushWr]

/-! ### Concrete fixtures used by the witness theorems -/

/-- A peer outside backoff with no handshake state. -/
def wPeerFree : RdmPeer :=
  { in_backoff := false, handshake_queued := false, handshake_sent := false,
    backoff_begin := 0, backoff_wait := 0 }

/-- A peer in backoff since time 5 with a 10us wait. -/
def wPeerBack : RdmPeer :=
  { in_backoff := true, handshake_queued := false, handshake_sent := false,
    backoff_begin := 5, backoff_wait := 10 }

/-- Peer table: address 0 is in backoff, every other address is not. -/
def wPeers : Nat → RdmPeer := fun x => if x = 0 then wPeerBack else wPeerFree

/-- Replenishment parameters for a zero-copy-receive endpoint without SHM. -/
def wRxParams : RxPostParams :=
  { use_zcpy_rx := true, use_shm := false, rx_pool_chunk_cnt := 4,
    shm_rx_size := 4, grow_result := 0 }

/-- An all-success send oracle. -/
def wOk : Nat → SendRes := fun _ => .ok 0

/-- A receive-post oracle that always succeeds. -/
def wPost : Nat → Int := fun _ => 0

/-- Endpoint state with peer 0 in unexpired backoff (now = 7 < 5 + 10) and
one rx entry queued toward peer 1. -/
def wStSkip : EpSt :=
  { now := 7, use_shm := true, use_zcpy_rx := true, peers := wPeers,
    peer_backoff_list := [0], handshake_queued_list := [],
    rx_queued_rnr := [{ id := 1, addr := 1 }], rx_queued_ctrl := [],
    tx_queued_rnr := [], tx_queued_ctrl := [], tx_pending := [],
    read_pending := [], efa_outstanding_tx_ops := 0,
    efa_max_outstanding_tx_ops := 4, max_data_payload_size := 2,
    rx_cnt := { efa_rx_pkts_posted := 1, efa_rx_pkts_to_post := 0,
                shm_rx_pkts_posted := 0, shm_rx_pkts_to_post := 0,
                available_data_bufs := 0 },
    rx_params := wRxParams, has_batched_wr := false }

/-- Endpoint state with peer 0 in expired backoff (now = 20 >= 5 + 10). -/
def wStExpire : EpSt := { wStSkip with now := 20 }

/-- Endpoint state whose TX queue is already full
(`efa_outstanding_tx_ops = efa_max_outstanding_tx_ops = 1`) with a pending
transfer to peer 1 and a pending read to peer 1. -/
def wStOut : EpSt :=
  { wStSkip with
    peer_backoff_list := []
    rx_queued_rnr := []
    tx_pending := [{ id := 2, addr := 1, window := 3, send_more := false }]
    read_pending := [{ id := 3, addr := 1 }]
    efa_outstanding_tx_ops := 1
    efa_max_outstanding_tx_ops := 1 }

/-- One pending transfer to peer 1 with a window of 3 bytes. -/
def wTxl : List TxPend := [{ id := 5, addr := 1, window := 3, send_more := false }]

end Rxr

namespace Rxr

/-! ### Trace utilities -/

theorem phasesOf_append (a b : List Ev) :
    phasesOf (a ++ b) = phasesOf a ++ phasesOf b := by
  simp [phasesOf]

theorem phasesOf_nil_of {evs : List Ev} (h : ∀ e ∈ evs, e.isPh = false) :
    phasesOf evs = [] := by
  induction evs with
  | nil => rfl
  | cons e t ih =>
    have he := h e (List.mem_cons_self e t)
    have ht := ih fun x hx => h x (List.mem_cons_of_mem e hx)
    cases e with
    | ph p => simp [Ev.isPh] at he
    | send k a r => simpa [phasesOf] using ht
    | data a w o r => simpa [phasesOf] using ht

/-! ### Queued-list drain lemmas -/

theorem drainQueued_evs (kind : SendKind) (O : Nat → SendRes)
    (peers : Nat → RdmPeer) (k : Nat) (l : List QEntry) :
    ∀ e ∈ (drainQueued kind O peers k l).evs,
      ∃ a r, e = .send kind a r ∧ (peers a).in_backoff = false := by
  induction l generalizing k with
  | nil => intro e he; simp [drainQueued] at he
  | cons q t ih =>
    intro e he
    cases hb : (peers q.addr).in_backoff with
    | true =>
      simp only [drainQueued, hb, if_true] at he
      exact ih k e he
    | false =>
      cases hO : O k with
      | eagain =>
        simp [drainQueued, hb, hO] at he
        exact ⟨q.addr, .eagain, by simp [he], hb⟩
      | fail =>
        simp [drainQueued, hb, hO] at he
        exact ⟨q.addr, .fail, by simp [he], hb⟩
      | ok sz =>
        simp only [drainQueued, hb, hO, Bool.false_eq_true, if_false] at he
        rcases List.mem_cons.1 he with h1 | h2
        · exact ⟨q.addr, .ok sz, h1, hb⟩
        · exact ih (k + 1) e h2

theorem drainQueued_not_ph (kind : SendKind) (O : Nat → SendRes)
    (peers : Nat → RdmPeer) (k : Nat) (l : List QEntry) :
    ∀ e ∈ (drainQueued kind O peers k l).evs, e.isPh = false := by
  intro e he
  obtain ⟨a, r, rfl, _⟩ := drainQueued_evs kind O peers k l e he
  rfl

theorem drainQueued_avoid (kind : SendKind) (O : Nat → SendRes)
    (peers : Nat → RdmPeer) (k : Nat) (l : List QEntry) (a : Nat)
    (ha : (peers a).in_backoff = true) :
    ∀ e ∈ (drainQueued kind O peers k l).evs, e.target ≠ some a := by
  intro e he
  obtain ⟨b, r, rfl, hb⟩ := drainQueued_evs kind O peers k l e he
  intro hba
  have hb' : b = a := by simpa [Ev.target] using hba
  rw [hb', ha] at hb
  exact absurd hb (by decide)

theorem drainQueued_eagain_last (kind : SendKind) (O : Nat → SendRes)
    (peers : Nat → RdmPeer) (k : Nat) (l : List QEntry)
    (l₁ l₂ : List Ev) (kind' : SendKind) (a : Nat)
    (h : (drainQueued kind O peers k l).evs =
      l₁ ++ Ev.send kind' a .eagain :: l₂) : l₂ = [] := by
  induction l generalizing k l₁ with
  | nil =>
    rw [show (drainQueued kind O peers k []).evs = [] from rfl] at h
    cases l₁ <;> simp at h
  | cons q t ih =>
    cases hb : (peers q.addr).in_backoff with
    | true =>
      simp only [drainQueued, hb, if_true] at h
      exact ih k l₁ h
    | false =>
      cases hO : O k with
      | eagain =>
        simp only [drainQueued, hb, hO, Bool.false_eq_true, if_false] at h
        rcases l₁ with _ | ⟨x, l₁⟩
        · rw [List.nil_append] at h
          injection h with h1 h2
          exact h2.symm
        · rw [List.cons_append] at h
          injection h with h1 h2
          cases l₁ <;> simp at h2
      | fail =>
        simp only [drainQueued, hb, hO, Bool.false_eq_true, if_false] at h
        rcases l₁ with _ | ⟨x, l₁⟩ <;> simp at h
      | ok sz =>
        simp only [drainQueued, hb, hO, Bool.false_eq_true, if_false] at h
        rcases l₁ with _ | ⟨x, l₁⟩
        · simp at h
        · simp only [List.cons_append, List.cons.injEq] at h
          exact ih (k + 1) l₁ h.2

theorem drainQueued_ctl_cont (kind : SendKind) (O : Nat → SendRes)
    (peers : Nat → RdmPeer) (k : Nat) (l : List QEntry)
    (hO : ∀ k', ∃ sz, O k' = .ok sz) :
    (drainQueued kind O peers k l).ctl = .cont := by
  induction l generalizing k with
  | nil => rfl
  | cons q t ih =>
    cases hb : (peers q.addr).in_backoff with
    | true => simp only [drainQueued, hb, if_true]; exact ih k
    | false =>
      obtain ⟨sz, hsz⟩ := hO k
      simp only [drainQueued, hb, hsz, Bool.false_eq_true, if_false]
      exact ih (k + 1)

/-! ### Handshake drain lemmas -/

theorem updPeer_in_backoff (peers : Nat → RdmPeer) (a : Nat) (p : RdmPeer)
    (hp : p.in_backoff = (peers a).in_backoff) (x : Nat) :
    (updPeer peers a p x).in_backoff = (peers x).in_backoff := by
  unfold updPeer
  by_cases hxa : x = a
  · subst hxa; simp [hp]
  · simp [hxa]

theorem drainHandshake_backoff_pres (O : Nat → SendRes) (peers : Nat → RdmPeer)
    (k : Nat) (l : List Nat) (x : Nat) :
    ((drainHandshake O peers k l).peers x).in_backoff = (peers x).in_backoff := by
  induction l generalizing peers k with
  | nil => rfl
  | cons a t ih =>
    cases hb : (peers a).in_backoff with
    | true => simp only [drainHandshake, hb, if_true]; exact ih peers k
    | false =>
      cases hO : O k with
      | eagain => simp [drainHandshake, hb, hO]
      | fail => simp [drainHandshake, hb, hO]
      | ok sz =>
        simp only [drainHandshake, hb, hO, Bool.false_eq_true, if_false]
        rw [ih]
        exact updPeer_in_backoff peers a _ (by simp [hb]) x

theorem drainHandshake_evs (O : Nat → SendRes) (peers : Nat → RdmPeer)
    (k : Nat) (l : List Nat) :
    ∀ e ∈ (drainHandshake O peers k l).evs,
      ∃ a r, e = .send .handshake a r ∧ (peers a).in_backoff = false := by
  induction l generalizing peers k with
  | nil => intro e he; simp [drainHandshake] at he
  | cons a t ih =>
    intro e he
    cases hb : (peers a).in_backoff with
    | true =>
      simp only [drainHandshake, hb, if_true] at he
      exact ih peers k e he
    | false =>
      cases hO : O k with
      | eagain =>
        simp [drainHandshake, hb, hO] at he
        exact ⟨a, .eagain, by simp [he], hb⟩
      | fail =>
        simp [drainHandshake, hb, hO] at he
        exact ⟨a, .fail, by simp [he], hb⟩
      | ok sz =>
        simp only [drainHandshake, hb, hO, Bool.false_eq_true, if_false] at he
        rcases List.mem_cons.1 he with h1 | h2
        · exact ⟨a, .ok sz, h1, hb⟩
        · obtain ⟨b, r, rfl, hbf⟩ := ih _ _ e h2
          refine ⟨b, r, rfl, ?_⟩
          rw [← hbf]
          exact (updPeer_in_backoff peers a _ (by simp [hb]) b).symm

theorem drainHandshake_not_ph (O : Nat → SendRes) (peers : Nat → RdmPeer)
    (k : Nat) (l : List Nat) :
    ∀ e ∈ (drainHandshake O peers k l).evs, e.isPh = false := by
  intro e he
  obtain ⟨a, r, rfl, _⟩ := drainHandshake_evs O peers k l e he
  rfl

theorem drainHandshake_avoid (O : Nat → SendRes) (peers : Nat → RdmPeer)
    (k : Nat) (l : List Nat) (a : Nat)
    (ha : (peers a).in_backoff = true) :
    ∀ e ∈ (drainHandshake O peers k l).evs, e.target ≠ some a := by
  intro e he
  obtain ⟨b, r, rfl, hb⟩ := drainHandshake_evs O peers k l e he
  intro hba
  have hb' : b = a := by simpa [Ev.target] using hba
  rw [hb', ha] at hb
  exact absurd hb (by decide)

theorem drainHandshake_ctl_cont (O : Nat → SendRes) (peers : Nat → RdmPeer)
    (k : Nat) (l : List Nat)
    (hO : ∀ k', ∃ sz, O k' = .ok sz) :
    (drainHandshake O peers k l).ctl = .cont := by
  induction l generalizing peers k with
  | nil => rfl
  | cons a t ih =>
    cases hb : (peers a).in_backoff with
    | true => simp only [drainHandshake, hb, if_true]; exact ih peers k
    | false =>
      obtain ⟨sz, hsz⟩ := hO k
      simp only [drainHandshake, hb, hsz, Bool.false_eq_true, if_false]
      exact ih _ (k + 1)

/-! ### Backoff-timer lemmas -/

theorem timer_deadline_pres (now : Nat) (peers : Nat → RdmPeer) (l : List Nat)
    (x : Nat) :
    ((rxr_ep_check_peer_backoff_timer now peers l).1 x).backoff_begin =
        (peers x).backoff_begin ∧
      ((rxr_ep_check_peer_backoff_timer now peers l).1 x).backoff_wait =
        (peers x).backoff_wait := by
  induction l generalizing peers with
  | nil => exact ⟨rfl, rfl⟩
  | cons a t ih =>
    by_cases hd : (peers a).backoff_begin + (peers a).backoff_wait ≤ now
    · simp only [rxr_ep_check_peer_backoff_timer, hd, if_true]
      have := ih (updPeer peers a { peers a with in_backoff := false })
      rcases this with ⟨h1, h2⟩
      rw [h1, h2]
      unfold updPeer
      by_cases hxa : x = a
      · subst hxa; simp
      · simp [hxa]
    · simp only [rxr_ep_check_peer_backoff_timer, hd, if_false]
      exact ih peers

theorem timer_keep (now : Nat) (peers : Nat → RdmPeer) (l : List Nat) (a : Nat)
    (h : ¬((peers a).backoff_begin + (peers a).backoff_wait ≤ now)) :
    (rxr_ep_check_peer_backoff_timer now peers l).1 a = peers a := by
  induction l generalizing peers with
  | nil => rfl
  | cons b t ih =>
    by_cases hd : (peers b).backoff_begin + (peers b).backoff_wait ≤ now
    · simp only [rxr_ep_check_peer_backoff_timer, hd, if_true]
      have hba : b ≠ a := by
        intro hba; subst hba; exact h hd
      have hupd : updPeer peers b { peers b with in_backoff := false } a = peers a := by
        unfold updPeer; simp [Ne.symm hba]
      rw [ih _ (by rw [hupd]; exact h)]
      exact hupd
    · simp only [rxr_ep_check_peer_backoff_timer, hd, if_false]
      exact ih peers h

theorem timer_pres_cleared (now : Nat) (peers : Nat → RdmPeer) (l : List Nat)
    (a : Nat) (h : (peers a).in_backoff = false) :
    ((rxr_ep_check_peer_backoff_timer now peers l).1 a).in_backoff = false := by
  induction l generalizing peers with
  | nil => exact h
  | cons b t ih =>
    by_cases hd : (peers b).backoff_begin + (peers b).backoff_wait ≤ now
    · simp only [rxr_ep_check_peer_backoff_timer, hd, if_true]
      refine ih _ ?_
      unfold updPeer
      by_cases hab : a = b
      · subst hab; simp
      · simp [hab, h]
    · simp only [rxr_ep_check_peer_backoff_timer, hd, if_false]
      exact ih peers h

theorem timer_subset (now : Nat) (peers : Nat → RdmPeer) (l : List Nat) (a : Nat)
    (h : a ∈ (rxr_ep_check_peer_backoff_timer now peers l).2) : a ∈ l := by
  induction l generalizing peers with
  | nil => exact h
  | cons b t ih =>
    by_cases hd : (peers b).backoff_begin + (peers b).backoff_wait ≤ now
    · simp only [rxr_ep_check_peer_backoff_timer, hd, if_true] at h
      exact List.mem_cons_of_mem b (ih _ h)
    · simp only [rxr_ep_check_peer_backoff_timer, hd, if_false] at h
      rcases List.mem_cons.1 h with h1 | h2
      · exact h1 ▸ List.mem_cons_self b t
      · exact List.mem_cons_of_mem b (ih peers h2)

theorem timer_clear (now : Nat) (peers : Nat → RdmPeer) (l : List Nat) (a : Nat)
    (hmem : a ∈ l)
    (hd : (peers a).backoff_begin + (peers a).backoff_wait ≤ now) :
    ((rxr_ep_check_peer_backoff_timer now peers l).1 a).in_backoff = false ∧
      a ∉ (rxr_ep_check_peer_backoff_timer now peers l).2 := by
  induction l generalizing peers with
  | nil => cases hmem
  | cons b t ih =>
    by_cases hdb : (peers b).backoff_begin + (peers b).backoff_wait ≤ now
    · simp only [rxr_ep_check_peer_backoff_timer, hdb, if_true]
      by_cases hab : a = b
      · subst hab
        constructor
        · refine timer_pres_cleared now _ t a ?_
          unfold updPeer; simp
        · intro hmem'
          have := timer_subset now _ t a hmem'
          -- a may genuinely recur in t; handle through the deadline argument
          have hd' : ((updPeer peers a { peers a with in_backoff := false }) a).backoff_begin +
              ((updPeer peers a { peers a with in_backoff := false }) a).backoff_wait ≤ now := by
            unfold updPeer; simpa using hd
          exact (ih _ this hd').2 hmem'
      · rcases List.mem_cons.1 hmem with h1 | h2
        · exact absurd h1 hab
        · have hd' : ((updPeer peers b { peers b with in_backoff := false }) a).backoff_begin +
              ((updPeer peers b { peers b with in_backoff := false }) a).backoff_wait ≤ now := by
            unfold updPeer; simp [hab]; exact hd
          exact ih _ h2 hd'
    · simp only [rxr_ep_check_peer_backoff_timer, hdb, if_false]
      by_cases hab : a = b
      · subst hab; exact absurd hd hdb
      · rcases List.mem_cons.1 hmem with h1 | h2
        · exact absurd h1 hab
        · refine ⟨(ih peers h2 hd).1, ?_⟩
          intro hmem'
          rcases List.mem_cons.1 hmem' with h1' | h2'
          · exact hab h1'
          · exact (ih peers h2 hd).2 h2'

/-! ### Data-send walk lemmas -/

theorem dataSendInner_evs (peers : Nat → RdmPeer) (mps maxo : Nat)
    (O : Nat → SendRes) (addr : Nat) (fuel window : Nat) (more : Bool)
    (outst k : Nat) :
    ∀ e ∈ (dataSendInner peers mps maxo O addr fuel window more outst k).evs,
      ∃ w o r, e = .data addr w o r ∧ (peers addr).in_backoff = false := by
  induction fuel generalizing window more outst k with
  | zero => intro e he; simp [dataSendInner] at he
  | succ n ih =>
    intro e he
    by_cases hw : window = 0
    · simp [dataSendInner, hw] at he
    · simp only [dataSendInner, hw, if_false] at he
      by_cases ho : outst = maxo
      · simp [ho] at he
      · simp only [ho, if_false] at he
        cases hbk : (peers addr).in_backoff with
        | true => simp [hbk] at he
        | false =>
          simp only [hbk, Bool.false_eq_true, if_false] at he
          cases hO : O k with
          | eagain =>
            simp [hO] at he
            exact ⟨window, outst, .eagain, by simp [he], rfl⟩
          | fail =>
            simp [hO] at he
            exact ⟨window, outst, .fail, by simp [he], rfl⟩
          | ok sz =>
            simp only [hO] at he
            rcases List.mem_cons.1 he with h1 | h2
            · exact ⟨window, outst, .ok sz, h1, rfl⟩
            · simpa [hbk] using ih _ _ _ _ e h2

theorem dataSendInner_guard (peers : Nat → RdmPeer) (mps maxo : Nat)
    (O : Nat → SendRes) (addr : Nat) (fuel window : Nat) (more : Bool)
    (outst k : Nat) (hout : outst ≤ maxo) :
    ∀ e ∈ (dataSendInner peers mps maxo O addr fuel window more outst k).evs,
      ∃ w o r, e = .data addr w o r ∧ 0 < w ∧ o < maxo ∧
        (peers addr).in_backoff = false := by
  induction fuel generalizing window more outst k with
  | zero => intro e he; simp [dataSendInner] at he
  | succ n ih =>
    intro e he
    by_cases hw : window = 0
    · simp [dataSendInner, hw] at he
    · simp only [dataSendInner, hw, if_false] at he
      by_cases ho : outst = maxo
      · simp [ho] at he
      · simp only [ho, if_false] at he
        have hlt : outst < maxo := lt_of_le_of_ne hout ho
        cases hbk : (peers addr).in_backoff with
        | true => simp [hbk] at he
        | false =>
          simp only [hbk, Bool.false_eq_true, if_false] at he
          cases hO : O k with
          | eagain =>
            simp [hO] at he
            exact ⟨window, outst, .eagain, by simp [he], Nat.pos_of_ne_zero hw, hlt, rfl⟩
          | fail =>
            simp [hO] at he
            exact ⟨window, outst, .fail, by simp [he], Nat.pos_of_ne_zero hw, hlt, rfl⟩
          | ok sz =>
            simp only [hO] at he
            rcases List.mem_cons.1 he with h1 | h2
            · exact ⟨window, outst, .ok sz, h1, Nat.pos_of_ne_zero hw, hlt, rfl⟩
            · simpa [hbk] using ih _ _ _ _ hlt e h2

theorem dataSendInner_outst_le (peers : Nat → RdmPeer) (mps maxo : Nat)
    (O : Nat → SendRes) (addr : Nat) (fuel window : Nat) (more : Bool)
    (outst k : Nat) (hout : outst ≤ maxo) :
    (dataSendInner peers mps maxo O addr fuel window more outst k).outst ≤ maxo := by
  induction fuel generalizing window more outst k with
  | zero => exact hout
  | succ n ih =>
    by_cases hw : window = 0
    · simp [dataSendInner, hw]; exact hout
    · simp only [dataSendInner, hw, if_false]
      by_cases ho : outst = maxo
      · simp [ho]
      · simp only [ho, if_false]
        have hlt : outst < maxo := lt_of_le_of_ne hout ho
        cases hbk : (peers addr).in_backoff with
        | true => simp [hbk]; exact hout
        | false =>
          simp only [hbk, Bool.false_eq_true, if_false]
          cases hO : O k with
          | eagain => simp [hO]; exact hout
          | fail => simp [hO]; exact hout
          | ok sz =>
            simp only [hO]
            exact ih _ _ _ _ hlt

theorem dataSendInner_ctl_not_abort (peers : Nat → RdmPeer) (mps maxo : Nat)
    (O : Nat → SendRes) (addr : Nat) (fuel window : Nat) (more : Bool)
    (outst k : Nat) (hO : ∀ k', ∃ sz, O k' = .ok sz) :
    (dataSendInner peers mps maxo O addr fuel window more outst k).ctl ≠ .abort := by
  induction fuel generalizing window more outst k with
  | zero => simp [dataSendInner]
  | succ n ih =>
    by_cases hw : window = 0
    · simp [dataSendInner, hw]
    · simp only [dataSendInner, hw, if_false]
      by_cases ho : outst = maxo
      · simp [ho]
      · simp only [ho, if_false]
        cases hbk : (peers addr).in_backoff with
        | true => simp [hbk]
        | false =>
          simp only [hbk, Bool.false_eq_true, if_false]
          obtain ⟨sz, hsz⟩ := hO k
          simp only [hsz]
          exact ih _ _ _ _

theorem dataSendWalk_evs (peers : Nat → RdmPeer) (mps maxo : Nat)
    (O : Nat → SendRes) (outst k : Nat) (l : List TxPend) :
    ∀ e ∈ (dataSendWalk peers mps maxo O outst k l).evs,
      ∃ a w o r, e = .data a w o r ∧ (peers a).in_backoff = false := by
  induction l generalizing outst k with
  | nil => intro e he; simp [dataSendWalk] at he
  | cons t rest ih =>
    intro e he
    cases hbk : (peers t.addr).in_backoff with
    | true =>
      simp only [dataSendWalk, hbk, if_true] at he
      exact ih _ _ e he
    | false =>
      by_cases hw : t.window = 0
      · simp only [dataSendWalk, hbk, Bool.false_eq_true, if_false, hw, if_true] at he
        exact ih _ _ e he
      · simp only [dataSendWalk, hbk, Bool.false_eq_true, if_false, hw] at he
        rcases hi : (dataSendInner peers mps maxo O t.addr t.window t.window true outst k).ctl
          with _ | _ | _
        all_goals rw [hi] at he
        · rcases List.mem_append.1 he with h1 | h2
          · obtain ⟨w, o, r, rfl, hb⟩ := dataSendInner_evs peers mps maxo O t.addr
              t.window t.window true outst k e h1
            exact ⟨t.addr, w, o, r, rfl, hb⟩
          · exact ih _ _ e h2
        · obtain ⟨w, o, r, rfl, hb⟩ := dataSendInner_evs peers mps maxo O t.addr
            t.window t.window true outst k e he
          exact ⟨t.addr, w, o, r, rfl, hb⟩
        · obtain ⟨w, o, r, rfl, hb⟩ := dataSendInner_evs peers mps maxo O t.addr
            t.window t.window true outst k e he
          exact ⟨t.addr, w, o, r, rfl, hb⟩

theorem dataSendWalk_guard (peers : Nat → RdmPeer) (mps maxo : Nat)
    (O : Nat → SendRes) (outst k : Nat) (l : List TxPend)
    (hout : outst ≤ maxo) :
    ∀ e ∈ (dataSendWalk peers mps maxo O outst k l).evs,
      ∃ a w o r, e = .data a w o r ∧ 0 < w ∧ o < maxo ∧
        (peers a).in_backoff = false := by
  induction l generalizing outst k with
  | nil => intro e he; simp [dataSendWalk] at he
  | cons t rest ih =>
    intro e he
    cases hbk : (peers t.addr).in_backoff with
    | true =>
      simp only [dataSendWalk, hbk, if_true] at he
      exact ih _ _ hout e he
    | false =>
      by_cases hw : t.window = 0
      · simp only [dataSendWalk, hbk, Bool.false_eq_true, if_false, hw, if_true] at he
        exact ih _ _ hout e he
      · simp only [dataSendWalk, hbk, Bool.false_eq_true, if_false, hw] at he
        have hinner := dataSendInner_guard peers mps maxo O t.addr
          t.window t.window true outst k hout
        have houtle := dataSendInner_outst_le peers mps maxo O t.addr
          t.window t.window true outst k hout
        rcases hi : (dataSendInner peers mps maxo O t.addr t.window t.window true outst k).ctl
          with _ | _ | _
        all_goals rw [hi] at he
        · rcases List.mem_append.1 he with h1 | h2
          · obtain ⟨w, o, r, rfl, h0, hlt, hb⟩ := hinner e h1
            exact ⟨t.addr, w, o, r, rfl, h0, hlt, by simpa [hbk] using hb⟩
          · exact ih _ _ houtle e h2
        · obtain ⟨w, o, r, rfl, h0, hlt, hb⟩ := hinner e he
          exact ⟨t.addr, w, o, r, rfl, h0, hlt, by simpa [hbk] using hb⟩
        · obtain ⟨w, o, r, rfl, h0, hlt, hb⟩ := hinner e he
          exact ⟨t.addr, w, o, r, rfl, h0, hlt, by simpa [hbk] using hb⟩

theorem dataSendWalk_not_ph (peers : Nat → RdmPeer) (mps maxo : Nat)
    (O : Nat → SendRes) (outst k : Nat) (l : List TxPend) :
    ∀ e ∈ (dataSendWalk peers mps maxo O outst k l).evs, e.isPh = false := by
  intro e he
  obtain ⟨a, w, o, r, rfl, _⟩ := dataSendWalk_evs peers mps maxo O outst k l e he
  rfl

theorem dataSendWalk_avoid (peers : Nat → RdmPeer) (mps maxo : Nat)
    (O : Nat → SendRes) (outst k : Nat) (l : List TxPend) (a : Nat)
    (ha : (peers a).in_backoff = true) :
    ∀ e ∈ (dataSendWalk peers mps maxo O outst k l).evs, e.target ≠ some a := by
  intro e he
  obtain ⟨b, w, o, r, rfl, hb⟩ := dataSendWalk_evs peers mps maxo O outst k l e he
  intro hba
  have hb' : b = a := by simpa [Ev.target] using hba
  rw [hb', ha] at hb
  exact absurd hb (by decide)

theorem dataSendWalk_ctl_not_abort (peers : Nat → RdmPeer) (mps maxo : Nat)
    (O : Nat → SendRes) (outst k : Nat) (l : List TxPend)
    (hO : ∀ k', ∃ sz, O k' = .ok sz) :
    (dataSendWalk peers mps maxo O outst k l).ctl ≠ .abort := by
  induction l generalizing outst k with
  | nil => simp [dataSendWalk]
  | cons t rest ih =>
    cases hbk : (peers t.addr).in_backoff with
    | true =>
      simp only [dataSendWalk, hbk, if_true]
      exact ih _ _
    | false =>
      by_cases hw : t.window = 0
      · simp only [dataSendWalk, hbk, Bool.false_eq_true, if_false, hw, if_true]
        exact ih _ _
      · simp only [dataSendWalk, hbk, Bool.false_eq_true, if_false, hw]
        have hna := dataSendInner_ctl_not_abort peers mps maxo O t.addr
          t.window t.window true outst k hO
        rcases hi : (dataSendInner peers mps maxo O t.addr t.window t.window true outst k).ctl
          with _ | _ | _
        · exact ih _ _
        · simp
        · exact absurd hi hna

theorem dataSendWalk_out_append (peers : Nat → RdmPeer) (mps maxo : Nat)
    (O : Nat → SendRes) (outst k : Nat) (l l₂ : List TxPend)
    (h : (dataSendWalk peers mps maxo O outst k l).ctl = .out) :
    (dataSendWalk peers mps maxo O outst k (l ++ l₂)).pending =
        (dataSendWalk peers mps maxo O outst k l).pending ++ l₂ ∧
      (dataSendWalk peers mps maxo O outst k (l ++ l₂)).evs =
        (dataSendWalk peers mps maxo O outst k l).evs ∧
      (dataSendWalk peers mps maxo O outst k (l ++ l₂)).outst =
        (dataSendWalk peers mps maxo O outst k l).outst ∧
      (dataSendWalk peers mps maxo O outst k (l ++ l₂)).ctl = .out := by
  induction l generalizing outst k with
  | nil => simp [dataSendWalk] at h
  | cons t rest ih =>
    cases hbk : (peers t.addr).in_backoff with
    | true =>
      simp only [List.cons_append, dataSendWalk, hbk, if_true] at h ⊢
      simp only [List.append_eq]
      obtain ⟨h1, h2, h3, h4⟩ := ih _ _ h
      exact ⟨by rw [h1], by rw [h2], by rw [h3], h4⟩
    | false =>
      by_cases hw : t.window = 0
      · simp only [List.cons_append, dataSendWalk, hbk, Bool.false_eq_true,
          if_false, hw, if_true] at h ⊢
        simp only [List.append_eq]
        obtain ⟨h1, h2, h3, h4⟩ := ih _ _ h
        exact ⟨by rw [h1], by rw [h2], by rw [h3], h4⟩
      · simp only [List.cons_append, dataSendWalk, hbk, Bool.false_eq_true,
          if_false, hw] at h ⊢
        rcases hi : (dataSendInner peers mps maxo O t.addr t.window t.window true outst k).ctl
          with _ | _ | _
        all_goals simp only [hi] at h ⊢
        · simp only [List.append_eq]
          obtain ⟨h1, h2, h3, h4⟩ := ih _ _ h
          exact ⟨by simp [h1], by rw [h2], by rw [h3], h4⟩
        · simp
        · simp at h

/-! ### Read-submission walk lemmas -/

theorem readSubmitWalk_evs (peers : Nat → RdmPeer) (maxo : Nat)
    (O : Nat → SendRes) (outst k : Nat) (l : List ReadPend) :
    ∀ e ∈ (readSubmitWalk peers maxo O outst k l).evs,
      ∃ a r, e = .send .readReq a r ∧ (peers a).in_backoff = false := by
  induction l generalizing k with
  | nil => intro e he; simp [readSubmitWalk] at he
  | cons q rest ih =>
    intro e he
    cases hbk : (peers q.addr).in_backoff with
    | true =>
      simp only [readSubmitWalk, hbk, if_true] at he
      exact ih _ e he
    | false =>
      by_cases hfull : outst = maxo
      · simp [readSubmitWalk, hbk, hfull] at he
      · simp only [readSubmitWalk, hbk, Bool.false_eq_true, if_false, hfull] at he
        cases hO : O k with
        | eagain =>
          simp [hO] at he
          exact ⟨q.addr, .eagain, by simp [he], hbk⟩
        | fail =>
          simp [hO] at he
          exact ⟨q.addr, .fail, by simp [he], hbk⟩
        | ok sz =>
          simp only [hO] at he
          rcases List.mem_cons.1 he with h1 | h2
          · exact ⟨q.addr, .ok sz, h1, hbk⟩
          · exact ih _ e h2

theorem readSubmitWalk_not_ph (peers : Nat → RdmPeer) (maxo : Nat)
    (O : Nat → SendRes) (outst k : Nat) (l : List ReadPend) :
    ∀ e ∈ (readSubmitWalk peers maxo O outst k l).evs, e.isPh = false := by
  intro e he
  obtain ⟨a, r, rfl, _⟩ := readSubmitWalk_evs peers maxo O outst k l e he
  rfl

theorem readSubmitWalk_avoid (peers : Nat → RdmPeer) (maxo : Nat)
    (O : Nat → SendRes) (outst k : Nat) (l : List ReadPend) (a : Nat)
    (ha : (peers a).in_backoff = true) :
    ∀ e ∈ (readSubmitWalk peers maxo O outst k l).evs, e.target ≠ some a := by
  intro e he
  obtain ⟨b, r, rfl, hb⟩ := readSubmitWalk_evs peers maxo O outst k l e he
  intro hba
  have hb' : b = a := by simpa [Ev.target] using hba
  rw [hb', ha] at hb
  exact absurd hb (by decide)

theorem readSubmitWalk_ctl_not_abort (peers : Nat → RdmPeer) (maxo : Nat)
    (O : Nat → SendRes) (outst k : Nat) (l : List ReadPend)
    (hO : ∀ k', ∃ sz, O k' = .ok sz) :
    (readSubmitWalk peers maxo O outst k l).ctl ≠ .abort := by
  induction l generalizing k with
  | nil => simp [readSubmitWalk]
  | cons q rest ih =>
    cases hbk : (peers q.addr).in_backoff with
    | true =>
      simp only [readSubmitWalk, hbk, if_true]
      exact ih _
    | false =>
      by_cases hfull : outst = maxo
      · simp [readSubmitWalk, hbk, hfull]
      · simp only [readSubmitWalk, hbk, Bool.false_eq_true, if_false, hfull]
        obtain ⟨sz, hsz⟩ := hO k
        simp only [hsz]
        exact ih _

theorem phasesOf_cons_ph (p : Phase) (t : List Ev) :
    phasesOf (Ev.ph p :: t) = p :: phasesOf t := by
  simp [phasesOf]

theorem phasesOf_single_ph (p : Phase) : phasesOf [Ev.ph p] = [p] := rfl

/-! ### Stage lemmas -/

theorem stageRead_avoid (O : Nat → SendRes) (k : Nat) (st : EpSt) (a : Nat)
    (ha : (st.peers a).in_backoff = true) :
    ∀ e ∈ (progressStageRead O k st).evs, e.target ≠ some a := by
  intro e he
  unfold progressStageRead at he
  by_cases hc : (readSubmitWalk st.peers st.efa_max_outstanding_tx_ops O
      st.efa_outstanding_tx_ops k st.read_pending).ctl = .abort
  · simp only [hc, if_true] at he
    rcases List.mem_cons.1 he with h1 | h2
    · subst h1; simp [Ev.target]
    · exact readSubmitWalk_avoid _ _ _ _ _ _ a ha e h2
  · simp only [hc, if_false] at he
    rcases List.mem_cons.1 he with h1 | h2
    · subst h1; simp [Ev.target]
    · rcases List.mem_append.1 h2 with h3 | h4
      · exact readSubmitWalk_avoid _ _ _ _ _ _ a ha e h3
      · rcases List.mem_singleton.1 h4 with rfl
        simp [Ev.target]

theorem stageRead_peers (O : Nat → SendRes) (k : Nat) (st : EpSt) :
    (progressStageRead O k st).st.peers = st.peers := by
  unfold progressStageRead
  by_cases hc : (readSubmitWalk st.peers st.efa_max_outstanding_tx_ops O
      st.efa_outstanding_tx_ops k st.read_pending).ctl = .abort <;>
    simp [hc]

theorem stageRead_backoff_list (O : Nat → SendRes) (k : Nat) (st : EpSt) :
    (progressStageRead O k st).st.peer_backoff_list = st.peer_backoff_list := by
  unfold progressStageRead
  by_cases hc : (readSubmitWalk st.peers st.efa_max_outstanding_tx_ops O
      st.efa_outstanding_tx_ops k st.read_pending).ctl = .abort <;>
    simp [hc]

theorem stageRead_phases_sub (O : Nat → SendRes) (k : Nat) (st : EpSt) :
    List.Sublist (phasesOf (progressStageRead O k st).evs)
      [.readSubmit, .flushWr] := by
  unfold progressStageRead
  have hr := readSubmitWalk_not_ph st.peers st.efa_max_outstanding_tx_ops O
    st.efa_outstanding_tx_ops k st.read_pending
  by_cases hc : (readSubmitWalk st.peers st.efa_max_outstanding_tx_ops O
      st.efa_outstanding_tx_ops k st.read_pending).ctl = .abort
  · simp only [hc, if_true]
    rw [show (Ev.ph .readSubmit :: (readSubmitWalk st.peers st.efa_max_outstanding_tx_ops O
        st.efa_outstanding_tx_ops k st.read_pending).evs) =
      [Ev.ph .readSubmit] ++ (readSubmitWalk st.peers st.efa_max_outstanding_tx_ops O
        st.efa_outstanding_tx_ops k st.read_pending).evs from rfl]
    rw [phasesOf_append, phasesOf_nil_of hr]
    simp [phasesOf]
  · simp only [hc, if_false]
    rw [show (Ev.ph .readSubmit :: (readSubmitWalk st.peers st.efa_max_outstanding_tx_ops O
        st.efa_outstanding_tx_ops k st.read_pending).evs ++ [Ev.ph .flushWr]) =
      [Ev.ph .readSubmit] ++ ((readSubmitWalk st.peers st.efa_max_outstanding_tx_ops O
        st.efa_outstanding_tx_ops k st.read_pending).evs ++ [Ev.ph .flushWr]) from rfl]
    rw [phasesOf_append, phasesOf_append, phasesOf_nil_of hr]
    simp [phasesOf]

theorem stageRead_phases_allOk (O : Nat → SendRes) (k : Nat) (st : EpSt)
    (hO : ∀ k', ∃ sz, O k' = .ok sz) :
    phasesOf (progressStageRead O k st).evs = [.readSubmit, .flushWr] := by
  unfold progressStageRead
  have hr := readSubmitWalk_not_ph st.peers st.efa_max_outstanding_tx_ops O
    st.efa_outstanding_tx_ops k st.read_pending
  have hna := readSubmitWalk_ctl_not_abort st.peers st.efa_max_outstanding_tx_ops O
    st.efa_outstanding_tx_ops k st.read_pending hO
  simp only [hna, if_false]
  rw [show (Ev.ph .readSubmit :: (readSubmitWalk st.peers st.efa_max_outstanding_tx_ops O
      st.efa_outstanding_tx_ops k st.read_pending).evs ++ [Ev.ph .flushWr]) =
    [Ev.ph .readSubmit] ++ ((readSubmitWalk st.peers st.efa_max_outstanding_tx_ops O
      st.efa_outstanding_tx_ops k st.read_pending).evs ++ [Ev.ph .flushWr]) from rfl]
  rw [phasesOf_append, phasesOf_append, phasesOf_nil_of hr]
  simp [phasesOf]

theorem stageData_avoid (O : Nat → SendRes) (k : Nat) (st : EpSt) (a : Nat)
    (ha : (st.peers a).in_backoff = true) :
    ∀ e ∈ (progressStageData O k st).evs, e.target ≠ some a := by
  intro e he
  unfold progressStageData at he
  have hw := dataSendWalk_avoid st.peers st.max_data_payload_size
    st.efa_max_outstanding_tx_ops O st.efa_outstanding_tx_ops k st.tx_pending a ha
  rcases hc : (dataSendWalk st.peers st.max_data_payload_size
      st.efa_max_outstanding_tx_ops O st.efa_outstanding_tx_ops k st.tx_pending).ctl
    with _ | _ | _
  all_goals simp only [hc] at he
  · rcases List.mem_cons.1 he with h1 | h2
    · subst h1; simp [Ev.target]
    · rcases List.mem_append.1 h2 with h3 | h4
      · exact hw e h3
      · exact stageRead_avoid O _ _ a (by simpa using ha) e h4
  · rcases List.mem_cons.1 he with h1 | h2
    · subst h1; simp [Ev.target]
    · rcases List.mem_append.1 h2 with h3 | h4
      · exact hw e h3
      · rcases List.mem_singleton.1 h4 with rfl
        simp [Ev.target]
  · rcases List.mem_cons.1 he with h1 | h2
    · subst h1; simp [Ev.target]
    · exact hw e h2

theorem stageData_peers (O : Nat → SendRes) (k : Nat) (st : EpSt) :
    (progressStageData O k st).st.peers = st.peers := by
  unfold progressStageData
  rcases hc : (dataSendWalk st.peers st.max_data_payload_size
      st.efa_max_outstanding_tx_ops O st.efa_outstanding_tx_ops k st.tx_pending).ctl
    with _ | _ | _
  · simp only [hc]
    rw [stageRead_peers]
  · simp only [hc]
  · simp only [hc]

theorem stageData_backoff_list (O : Nat → SendRes) (k : Nat) (st : EpSt) :
    (progressStageData O k st).st.peer_backoff_list = st.peer_backoff_list := by
  unfold progressStageData
  rcases hc : (dataSendWalk st.peers st.max_data_payload_size
      st.efa_max_outstanding_tx_ops O st.efa_outstanding_tx_ops k st.tx_pending).ctl
    with _ | _ | _
  · simp only [hc]
    rw [stageRead_backoff_list]
  · simp only [hc]
  · simp only [hc]

theorem stageData_phases_sub (O : Nat → SendRes) (k : Nat) (st : EpSt) :
    List.Sublist (phasesOf (progressStageData O k st).evs)
      [.dataSend, .readSubmit, .flushWr] := by
  unfold progressStageData
  have hw := dataSendWalk_not_ph st.peers st.max_data_payload_size
    st.efa_max_outstanding_tx_ops O st.efa_outstanding_tx_ops k st.tx_pending
  rcases hc : (dataSendWalk st.peers st.max_data_payload_size
      st.efa_max_outstanding_tx_ops O st.efa_outstanding_tx_ops k st.tx_pending).ctl
    with _ | _ | _
  all_goals simp only [hc]
  · rw [phasesOf_append, phasesOf_cons_ph, phasesOf_nil_of hw]
    exact List.Sublist.cons₂ _ (stageRead_phases_sub O _ _)
  · rw [phasesOf_append, phasesOf_cons_ph, phasesOf_nil_of hw, phasesOf_single_ph]
    exact (by decide : List.Sublist [Phase.dataSend, Phase.flushWr]
      [Phase.dataSend, Phase.readSubmit, Phase.flushWr])
  · rw [phasesOf_cons_ph, phasesOf_nil_of hw]
    exact (by decide : List.Sublist [Phase.dataSend]
      [Phase.dataSend, Phase.readSubmit, Phase.flushWr])

theorem stageData_phases_allOk (O : Nat → SendRes) (k : Nat) (st : EpSt)
    (hO : ∀ k', ∃ sz, O k' = .ok sz)
    (hout : (progressStageData O k st).data_ctl ≠ .out) :
    phasesOf (progressStageData O k st).evs =
      [.dataSend, .readSubmit, .flushWr] := by
  have hna := dataSendWalk_ctl_not_abort st.peers st.max_data_payload_size
    st.efa_max_outstanding_tx_ops O st.efa_outstanding_tx_ops k st.tx_pending hO
  have hw := dataSendWalk_not_ph st.peers st.max_data_payload_size
    st.efa_max_outstanding_tx_ops O st.efa_outstanding_tx_ops k st.tx_pending
  unfold progressStageData at hout ⊢
  rcases hc : (dataSendWalk st.peers st.max_data_payload_size
      st.efa_max_outstanding_tx_ops O st.efa_outstanding_tx_ops k st.tx_pending).ctl
    with _ | _ | _
  all_goals simp only [hc] at hout ⊢
  · rw [phasesOf_append, phasesOf_cons_ph, phasesOf_nil_of hw,
      stageRead_phases_allOk O _ _ hO]
    rfl
  · exact absurd rfl hout
  · exact absurd hc hna

theorem stageTxCtrl_avoid (O : Nat → SendRes) (k : Nat) (st : EpSt) (a : Nat)
    (ha : (st.peers a).in_backoff = true) :
    ∀ e ∈ (progressStageTxCtrl O k st).evs, e.target ≠ some a := by
  intro e he
  unfold progressStageTxCtrl at he
  by_cases hc : (drainQueued .txCtrl O st.peers k st.tx_queued_ctrl).ctl = .abort
  · simp only [hc, if_true] at he
    rcases List.mem_cons.1 he with h1 | h2
    · subst h1; simp [Ev.target]
    · exact drainQueued_avoid _ _ _ _ _ a ha e h2
  · simp only [hc, if_false] at he
    rcases List.mem_cons.1 he with h1 | h2
    · subst h1; simp [Ev.target]
    · rcases List.mem_append.1 h2 with h3 | h4
      · exact drainQueued_avoid _ _ _ _ _ a ha e h3
      · refine stageData_avoid O _ _ a ?_ e h4
        exact ha

theorem stageTxCtrl_peers (O : Nat → SendRes) (k : Nat) (st : EpSt) :
    (progressStageTxCtrl O k st).st.peers = st.peers := by
  unfold progressStageTxCtrl
  by_cases hc : (drainQueued .txCtrl O st.peers k st.tx_queued_ctrl).ctl = .abort
  · simp [hc]
  · simp [hc, stageData_peers]

theorem stageTxCtrl_backoff_list (O : Nat → SendRes) (k : Nat) (st : EpSt) :
    (progressStageTxCtrl O k st).st.peer_backoff_list = st.peer_backoff_list := by
  unfold progressStageTxCtrl
  by_cases hc : (drainQueued .txCtrl O st.peers k st.tx_queued_ctrl).ctl = .abort
  · simp [hc]
  · simp [hc, stageData_backoff_list]

theorem stageTxCtrl_phases_sub (O : Nat → SendRes) (k : Nat) (st : EpSt) :
    List.Sublist (phasesOf (progressStageTxCtrl O k st).evs)
      [.txCtrlDrain, .dataSend, .readSubmit, .flushWr] := by
  unfold progressStageTxCtrl
  have hd := drainQueued_not_ph .txCtrl O st.peers k st.tx_queued_ctrl
  by_cases hc : (drainQueued .txCtrl O st.peers k st.tx_queued_ctrl).ctl = .abort
  · simp only [hc, if_true]
    rw [phasesOf_cons_ph, phasesOf_nil_of hd]
    decide
  · simp only [hc, if_false]
    rw [phasesOf_append, phasesOf_cons_ph, phasesOf_nil_of hd]
    exact List.Sublist.cons₂ _ (stageData_phases_sub O _ _)

theorem stageTxCtrl_phases_allOk (O : Nat → SendRes) (k : Nat) (st : EpSt)
    (hO : ∀ k', ∃ sz, O k' = .ok sz)
    (hout : (progressStageTxCtrl O k st).data_ctl ≠ .out) :
    phasesOf (progressStageTxCtrl O k st).evs = [.txCtrlDrain, .dataSend, .readSubmit, .flushWr] := by
  have hcont := drainQueued_ctl_cont .txCtrl O st.peers k st.tx_queued_ctrl hO
  have hd := drainQueued_not_ph .txCtrl O st.peers k st.tx_queued_ctrl
  unfold progressStageTxCtrl at hout ⊢
  simp only [hcont, show (Ctl.cont = Ctl.abort) = False from by simp, if_false] at hout ⊢
  rw [phasesOf_append, phasesOf_cons_ph, phasesOf_nil_of hd,
    stageData_phases_allOk O _ _ hO hout]
  rfl

theorem stageTxRnr_avoid (O : Nat → SendRes) (k : Nat) (st : EpSt) (a : Nat)
    (ha : (st.peers a).in_backoff = true) :
    ∀ e ∈ (progressStageTxRnr O k st).evs, e.target ≠ some a := by
  intro e he
  unfold progressStageTxRnr at he
  by_cases hc : (drainQueued .txRnr O st.peers k st.tx_queued_rnr).ctl = .abort
  · simp only [hc, if_true] at he
    rcases List.mem_cons.1 he with h1 | h2
    · subst h1; simp [Ev.target]
    · exact drainQueued_avoid _ _ _ _ _ a ha e h2
  · simp only [hc, if_false] at he
    rcases List.mem_cons.1 he with h1 | h2
    · subst h1; simp [Ev.target]
    · rcases List.mem_append.1 h2 with h3 | h4
      · exact drainQueued_avoid _ _ _ _ _ a ha e h3
      · refine stageTxCtrl_avoid O _ _ a ?_ e h4
        exact ha

theorem stageTxRnr_peers (O : Nat → SendRes) (k : Nat) (st : EpSt) :
    (progressStageTxRnr O k st).st.peers = st.peers := by
  unfold progressStageTxRnr
  by_cases hc : (drainQueued .txRnr O st.peers k st.tx_queued_rnr).ctl = .abort
  · simp [hc]
  · simp [hc, stageTxCtrl_peers]

theorem stageTxRnr_backoff_list (O : Nat → SendRes) (k : Nat) (st : EpSt) :
    (progressStageTxRnr O k st).st.peer_backoff_list = st.peer_backoff_list := by
  unfold progressStageTxRnr
  by_cases hc : (drainQueued .txRnr O st.peers k st.tx_queued_rnr).ctl = .abort
  · simp [hc]
  · simp [hc, stageTxCtrl_backoff_list]

theorem stageTxRnr_phases_sub (O : Nat → SendRes) (k : Nat) (st : EpSt) :
    List.Sublist (phasesOf (progressStageTxRnr O k st).evs)
      [.txRnrDrain, .txCtrlDrain, .dataSend, .readSubmit, .flushWr] := by
  unfold progressStageTxRnr
  have hd := drainQueued_not_ph .txRnr O st.peers k st.tx_queued_rnr
  by_cases hc : (drainQueued .txRnr O st.peers k st.tx_queued_rnr).ctl = .abort
  · simp only [hc, if_true]
    rw [phasesOf_cons_ph, phasesOf_nil_of hd]
    decide
  · simp only [hc, if_false]
    rw [phasesOf_append, phasesOf_cons_ph, phasesOf_nil_of hd]
    exact List.Sublist.cons₂ _ (stageTxCtrl_phases_sub O _ _)

theorem stageTxRnr_phases_allOk (O : Nat → SendRes) (k : Nat) (st : EpSt)
    (hO : ∀ k', ∃ sz, O k' = .ok sz)
    (hout : (progressStageTxRnr O k st).data_ctl ≠ .out) :
    phasesOf (progressStageTxRnr O k st).evs = [.txRnrDrain, .txCtrlDrain, .dataSend, .readSubmit, .flushWr] := by
  have hcont := drainQueued_ctl_cont .txRnr O st.peers k st.tx_queued_rnr hO
  have hd := drainQueued_not_ph .txRnr O st.peers k st.tx_queued_rnr
  unfold progressStageTxRnr at hout ⊢
  simp only [hcont, show (Ctl.cont = Ctl.abort) = False from by simp, if_false] at hout ⊢
  rw [phasesOf_append, phasesOf_cons_ph, phasesOf_nil_of hd,
    stageTxCtrl_phases_allOk O _ _ hO hout]
  rfl

theorem stageRxCtrl_avoid (O : Nat → SendRes) (k : Nat) (st : EpSt) (a : Nat)
    (ha : (st.peers a).in_backoff = true) :
    ∀ e ∈ (progressStageRxCtrl O k st).evs, e.target ≠ some a := by
  intro e he
  unfold progressStageRxCtrl at he
  by_cases hc : (drainQueued .rxCtrl O st.peers k st.rx_queued_ctrl).ctl = .abort
  · simp only [hc, if_true] at he
    rcases List.mem_cons.1 he with h1 | h2
    · subst h1; simp [Ev.target]
    · exact drainQueued_avoid _ _ _ _ _ a ha e h2
  · simp only [hc, if_false] at he
    rcases List.mem_cons.1 he with h1 | h2
    · subst h1; simp [Ev.target]
    · rcases List.mem_append.1 h2 with h3 | h4
      · exact drainQueued_avoid _ _ _ _ _ a ha e h3
      · refine stageTxRnr_avoid O _ _ a ?_ e h4
        exact ha

theorem stageRxCtrl_peers (O : Nat → SendRes) (k : Nat) (st : EpSt) :
    (progressStageRxCtrl O k st).st.peers = st.peers := by
  unfold progressStageRxCtrl
  by_cases hc : (drainQueued .rxCtrl O st.peers k st.rx_queued_ctrl).ctl = .abort
  · simp [hc]
  · simp [hc, stageTxRnr_peers]

theorem stageRxCtrl_backoff_list (O : Nat → SendRes) (k : Nat) (st : EpSt) :
    (progressStageRxCtrl O k st).st.peer_backoff_list = st.peer_backoff_list := by
  unfold progressStageRxCtrl
  by_cases hc : (drainQueued .rxCtrl O st.peers k st.rx_queued_ctrl).ctl = .abort
  · simp [hc]
  · simp [hc, stageTxRnr_backoff_list]

theorem stageRxCtrl_phases_sub (O : Nat → SendRes) (k : Nat) (st : EpSt) :
    List.Sublist (phasesOf (progressStageRxCtrl O k st).evs)
      [.rxCtrlDrain, .txRnrDrain, .txCtrlDrain, .dataSend, .readSubmit, .flushWr] := by
  unfold progressStageRxCtrl
  have hd := drainQueued_not_ph .rxCtrl O st.peers k st.rx_queued_ctrl
  by_cases hc : (drainQueued .rxCtrl O st.peers k st.rx_queued_ctrl).ctl = .abort
  · simp only [hc, if_true]
    rw [phasesOf_cons_ph, phasesOf_nil_of hd]
    decide
  · simp only [hc, if_false]
    rw [phasesOf_append, phasesOf_cons_ph, phasesOf_nil_of hd]
    exact List.Sublist.cons₂ _ (stageTxRnr_phases_sub O _ _)

theorem stageRxCtrl_phases_allOk (O : Nat → SendRes) (k : Nat) (st : EpSt)
    (hO : ∀ k', ∃ sz, O k' = .ok sz)
    (hout : (progressStageRxCtrl O k st).data_ctl ≠ .out) :
    phasesOf (progressStageRxCtrl O k st).evs = [.rxCtrlDrain, .txRnrDrain, .txCtrlDrain, .dataSend, .readSubmit, .flushWr] := by
  have hcont := drainQueued_ctl_cont .rxCtrl O st.peers k st.rx_queued_ctrl hO
  have hd := drainQueued_not_ph .rxCtrl O st.peers k st.rx_queued_ctrl
  unfold progressStageRxCtrl at hout ⊢
  simp only [hcont, show (Ctl.cont = Ctl.abort) = False from by simp, if_false] at hout ⊢
  rw [phasesOf_append, phasesOf_cons_ph, phasesOf_nil_of hd,
    stageTxRnr_phases_allOk O _ _ hO hout]
  rfl

theorem stageRxRnr_avoid (O : Nat → SendRes) (k : Nat) (st : EpSt) (a : Nat)
    (ha : (st.peers a).in_backoff = true) :
    ∀ e ∈ (progressStageRxRnr O k st).evs, e.target ≠ some a := by
  intro e he
  unfold progressStageRxRnr at he
  by_cases hc : (drainQueued .rxRnr O st.peers k st.rx_queued_rnr).ctl = .abort
  · simp only [hc, if_true] at he
    rcases List.mem_cons.1 he with h1 | h2
    · subst h1; simp [Ev.target]
    · exact drainQueued_avoid _ _ _ _ _ a ha e h2
  · simp only [hc, if_false] at he
    rcases List.mem_cons.1 he with h1 | h2
    · subst h1; simp [Ev.target]
    · rcases List.mem_append.1 h2 with h3 | h4
      · exact drainQueued_avoid _ _ _ _ _ a ha e h3
      · refine stageRxCtrl_avoid O _ _ a ?_ e h4
        exact ha

theorem stageRxRnr_peers (O : Nat → SendRes) (k : Nat) (st : EpSt) :
    (progressStageRxRnr O k st).st.peers = st.peers := by
  unfold progressStageRxRnr
  by_cases hc : (drainQueued .rxRnr O st.peers k st.rx_queued_rnr).ctl = .abort
  · simp [hc]
  · simp [hc, stageRxCtrl_peers]

theorem stageRxRnr_backoff_list (O : Nat → SendRes) (k : Nat) (st : EpSt) :
    (progressStageRxRnr O k st).st.peer_backoff_list = st.peer_backoff_list := by
  unfold progressStageRxRnr
  by_cases hc : (drainQueued .rxRnr O st.peers k st.rx_queued_rnr).ctl = .abort
  · simp [hc]
  · simp [hc, stageRxCtrl_backoff_list]

theorem stageRxRnr_phases_sub (O : Nat → SendRes) (k : Nat) (st : EpSt) :
    List.Sublist (phasesOf (progressStageRxRnr O k st).evs)
      [.rxRnrDrain, .rxCtrlDrain, .txRnrDrain, .txCtrlDrain, .dataSend, .readSubmit, .flushWr] := by
  unfold progressStageRxRnr
  have hd := drainQueued_not_ph .rxRnr O st.peers k st.rx_queued_rnr
  by_cases hc : (drainQueued .rxRnr O st.peers k st.rx_queued_rnr).ctl = .abort
  · simp only [hc, if_true]
    rw [phasesOf_cons_ph, phasesOf_nil_of hd]
    decide
  · simp only [hc, if_false]
    rw [phasesOf_append, phasesOf_cons_ph, phasesOf_nil_of hd]
    exact List.Sublist.cons₂ _ (stageRxCtrl_phases_sub O _ _)

theorem stageRxRnr_phases_allOk (O : Nat → SendRes) (k : Nat) (st : EpSt)
    (hO : ∀ k', ∃ sz, O k' = .ok sz)
    (hout : (progressStageRxRnr O k st).data_ctl ≠ .out) :
    phasesOf (progressStageRxRnr O k st).evs = [.rxRnrDrain, .rxCtrlDrain, .txRnrDrain, .txCtrlDrain, .dataSend, .readSubmit, .flushWr] := by
  have hcont := drainQueued_ctl_cont .rxRnr O st.peers k st.rx_queued_rnr hO
  have hd := drainQueued_not_ph .rxRnr O st.peers k st.rx_queued_rnr
  unfold progressStageRxRnr at hout ⊢
  simp only [hcont, show (Ctl.cont = Ctl.abort) = False from by simp, if_false] at hout ⊢
  rw [phasesOf_append, phasesOf_cons_ph, phasesOf_nil_of hd,
    stageRxCtrl_phases_allOk O _ _ hO hout]
  rfl

theorem stageHandshake_avoid (O : Nat → SendRes) (st : EpSt) (a : Nat)
    (ha : (st.peers a).in_backoff = true) :
    ∀ e ∈ (progressStageHandshake O st).evs, e.target ≠ some a := by
  intro e he
  unfold progressStageHandshake at he
  by_cases hc : (drainHandshake O st.peers 0 st.handshake_queued_list).ctl = .abort
  · simp only [hc, if_true] at he
    rcases List.mem_cons.1 he with h1 | h2
    · subst h1; simp [Ev.target]
    · exact drainHandshake_avoid _ _ _ _ a ha e h2
  · simp only [hc, if_false] at he
    rcases List.mem_cons.1 he with h1 | h2
    · subst h1; simp [Ev.target]
    · rcases List.mem_append.1 h2 with h3 | h4
      · exact drainHandshake_avoid _ _ _ _ a ha e h3
      · refine stageRxRnr_avoid O _ _ a ?_ e h4
        show ((drainHandshake O st.peers 0 st.handshake_queued_list).peers a).in_backoff = true
        rw [drainHandshake_backoff_pres]
        exact ha

theorem stageHandshake_backoff_pres (O : Nat → SendRes) (st : EpSt) (x : Nat) :
    ((progressStageHandshake O st).st.peers x).in_backoff =
      (st.peers x).in_backoff := by
  unfold progressStageHandshake
  by_cases hc : (drainHandshake O st.peers 0 st.handshake_queued_list).ctl = .abort
  · simp only [hc, if_true]
    exact drainHandshake_backoff_pres O st.peers 0 st.handshake_queued_list x
  · simp only [hc, if_false]
    rw [stageRxRnr_peers]
    exact drainHandshake_backoff_pres O st.peers 0 st.handshake_queued_list x

theorem stageHandshake_backoff_list (O : Nat → SendRes) (st : EpSt) :
    (progressStageHandshake O st).st.peer_backoff_list = st.peer_backoff_list := by
  unfold progressStageHandshake
  by_cases hc : (drainHandshake O st.peers 0 st.handshake_queued_list).ctl = .abort
  · simp [hc]
  · simp [hc, stageRxRnr_backoff_list]

theorem stageHandshake_phases_sub (O : Nat → SendRes) (st : EpSt) :
    List.Sublist (phasesOf (progressStageHandshake O st).evs)
      [.handshakeDrain, .rxRnrDrain, .rxCtrlDrain, .txRnrDrain, .txCtrlDrain,
       .dataSend, .readSubmit, .flushWr] := by
  unfold progressStageHandshake
  have hd := drainHandshake_not_ph O st.peers 0 st.handshake_queued_list
  by_cases hc : (drainHandshake O st.peers 0 st.handshake_queued_list).ctl = .abort
  · simp only [hc, if_true]
    rw [phasesOf_cons_ph, phasesOf_nil_of hd]
    decide
  · simp only [hc, if_false]
    rw [phasesOf_append, phasesOf_cons_ph, phasesOf_nil_of hd]
    exact List.Sublist.cons₂ _ (stageRxRnr_phases_sub O _ _)

theorem stageHandshake_phases_allOk (O : Nat → SendRes) (st : EpSt)
    (hO : ∀ k', ∃ sz, O k' = .ok sz)
    (hout : (progressStageHandshake O st).data_ctl ≠ .out) :
    phasesOf (progressStageHandshake O st).evs =
      [.handshakeDrain, .rxRnrDrain, .rxCtrlDrain, .txRnrDrain, .txCtrlDrain,
       .dataSend, .readSubmit, .flushWr] := by
  have hcont := drainHandshake_ctl_cont O st.peers 0 st.handshake_queued_list hO
  have hd := drainHandshake_not_ph O st.peers 0 st.handshake_queued_list
  unfold progressStageHandshake at hout ⊢
  simp only [hcont, show (Ctl.cont = Ctl.abort) = False from by simp, if_false] at hout ⊢
  rw [phasesOf_append, phasesOf_cons_ph, phasesOf_nil_of hd,
    stageRxRnr_phases_allOk O _ _ hO hout]
  rfl

/-! ### Tick-level lemmas -/

theorem rdm_ep_poll_ibv_cq_calls_le (c : Nat → IbvPollRes) (n i : Nat) :
    rdm_ep_poll_ibv_cq_calls c n i ≤ n := by
  induction n generalizing i with
  | zero => exact Nat.le_refl 0
  | succ m ih =>
    unfold rdm_ep_poll_ibv_cq_calls
    cases c i with
    | empty => exact Nat.le_add_left 1 m
    | good =>
      rw [Nat.add_comm 1 (rdm_ep_poll_ibv_cq_calls c m (i + 1))]
      exact Nat.succ_le_succ (ih (i + 1))
    | bad => exact Nat.le_add_left 1 m

theorem stageRead_data_ctl (O : Nat → SendRes) (k : Nat) (st : EpSt) :
    (progressStageRead O k st).data_ctl ≠ .out := by
  unfold progressStageRead
  by_cases hc : (readSubmitWalk st.peers st.efa_max_outstanding_tx_ops O
      st.efa_outstanding_tx_ops k st.read_pending).ctl = .abort <;> simp [hc]

theorem stageData_out_no_read (O : Nat → SendRes) (k : Nat) (st : EpSt)
    (h : (progressStageData O k st).data_ctl = .out) :
    ∀ e ∈ (progressStageData O k st).evs,
      (∀ b r', e ≠ Ev.send .readReq b r') ∧ e ≠ Ev.ph .readSubmit := by
  intro e he
  have hw := dataSendWalk_evs st.peers st.max_data_payload_size
    st.efa_max_outstanding_tx_ops O st.efa_outstanding_tx_ops k st.tx_pending
  unfold progressStageData at h he
  rcases hc : (dataSendWalk st.peers st.max_data_payload_size
      st.efa_max_outstanding_tx_ops O st.efa_outstanding_tx_ops k st.tx_pending).ctl
    with _ | _ | _
  all_goals simp only [hc] at h he
  · exact absurd h (stageRead_data_ctl O _ _)
  · rcases List.mem_cons.1 he with h1 | h2
    · subst h1; exact ⟨by simp, by simp⟩
    · rcases List.mem_append.1 h2 with h3 | h4
      · obtain ⟨b, w, o, r, rfl, -⟩ := hw e h3
        exact ⟨by simp, by simp⟩
      · rcases List.mem_singleton.1 h4 with rfl
        exact ⟨by simp, by simp⟩
  · exact absurd h (by simp)

theorem stageData_out_of_walk (O : Nat → SendRes) (k : Nat) (st : EpSt)
    (h : (progressStageData O k st).data_ctl = .out) :
    (dataSendWalk st.peers st.max_data_payload_size st.efa_max_outstanding_tx_ops
      O st.efa_outstanding_tx_ops k st.tx_pending).ctl = .out := by
  unfold progressStageData at h
  rcases hc : (dataSendWalk st.peers st.max_data_payload_size
      st.efa_max_outstanding_tx_ops O st.efa_outstanding_tx_ops k st.tx_pending).ctl
    with _ | _ | _
  all_goals simp only [hc] at h ⊢
  · exact absurd h (stageRead_data_ctl O _ _)
  · exact h

theorem stageTxCtrl_out_no_read (O : Nat → SendRes) (k : Nat) (st : EpSt)
    (h : (progressStageTxCtrl O k st).data_ctl = .out) :
    ∀ e ∈ (progressStageTxCtrl O k st).evs,
      (∀ b r', e ≠ Ev.send .readReq b r') ∧ e ≠ Ev.ph .readSubmit := by
  intro e he
  have hd := drainQueued_evs .txCtrl O st.peers k st.tx_queued_ctrl
  unfold progressStageTxCtrl at h he
  by_cases hc : (drainQueued .txCtrl O st.peers k st.tx_queued_ctrl).ctl = .abort
  · simp only [hc, if_true] at h
    exact absurd h (by simp)
  · simp only [hc, if_false] at h he
    rcases List.mem_cons.1 he with h1 | h2
    · subst h1; exact ⟨by simp, by simp⟩
    · rcases List.mem_append.1 h2 with h3 | h4
      · obtain ⟨b, r, rfl, -⟩ := hd e h3
        exact ⟨by simp, by simp⟩
      · exact stageData_out_no_read O _ _ h e h4

theorem stageTxRnr_out_no_read (O : Nat → SendRes) (k : Nat) (st : EpSt)
    (h : (progressStageTxRnr O k st).data_ctl = .out) :
    ∀ e ∈ (progressStageTxRnr O k st).evs,
      (∀ b r', e ≠ Ev.send .readReq b r') ∧ e ≠ Ev.ph .readSubmit := by
  intro e he
  have hd := drainQueued_evs .txRnr O st.peers k st.tx_queued_rnr
  unfold progressStageTxRnr at h he
  by_cases hc : (drainQueued .txRnr O st.peers k st.tx_queued_rnr).ctl = .abort
  · simp only [hc, if_true] at h
    exact absurd h (by simp)
  · simp only [hc, if_false] at h he
    rcases List.mem_cons.1 he with h1 | h2
    · subst h1; exact ⟨by simp, by simp⟩
    · rcases List.mem_append.1 h2 with h3 | h4
      · obtain ⟨b, r, rfl, -⟩ := hd e h3
        exact ⟨by simp, by simp⟩
      · exact stageTxCtrl_out_no_read O _ _ h e h4

theorem stageRxCtrl_out_no_read (O : Nat → SendRes) (k : Nat) (st : EpSt)
    (h : (progressStageRxCtrl O k st).data_ctl = .out) :
    ∀ e ∈ (progressStageRxCtrl O k st).evs,
      (∀ b r', e ≠ Ev.send .readReq b r') ∧ e ≠ Ev.ph .readSubmit := by
  intro e he
  have hd := drainQueued_evs .rxCtrl O st.peers k st.rx_queued_ctrl
  unfold progressStageRxCtrl at h he
  by_cases hc : (drainQueued .rxCtrl O st.peers k st.rx_queued_ctrl).ctl = .abort
  · simp only [hc, if_true] at h
    exact absurd h (by simp)
  · simp only [hc, if_false] at h he
    rcases List.mem_cons.1 he with h1 | h2
    · subst h1; exact ⟨by simp, by simp⟩
    · rcases List.mem_append.1 h2 with h3 | h4
      · obtain ⟨b, r, rfl, -⟩ := hd e h3
        exact ⟨by simp, by simp⟩
      · exact stageTxRnr_out_no_read O _ _ h e h4

theorem stageRxRnr_out_no_read (O : Nat → SendRes) (k : Nat) (st : EpSt)
    (h : (progressStageRxRnr O k st).data_ctl = .out) :
    ∀ e ∈ (progressStageRxRnr O k st).evs,
      (∀ b r', e ≠ Ev.send .readReq b r') ∧ e ≠ Ev.ph .readSubmit := by
  intro e he
  have hd := drainQueued_evs .rxRnr O st.peers k st.rx_queued_rnr
  unfold progressStageRxRnr at h he
  by_cases hc : (drainQueued .rxRnr O st.peers k st.rx_queued_rnr).ctl = .abort
  · simp only [hc, if_true] at h
    exact absurd h (by simp)
  · simp only [hc, if_false] at h he
    rcases List.mem_cons.1 he with h1 | h2
    · subst h1; exact ⟨by simp, by simp⟩
    · rcases List.mem_append.1 h2 with h3 | h4
      · obtain ⟨b, r, rfl, -⟩ := hd e h3
        exact ⟨by simp, by simp⟩
      · exact stageRxCtrl_out_no_read O _ _ h e h4

theorem stageHandshake_out_no_read (O : Nat → SendRes) (st : EpSt)
    (h : (progressStageHandshake O st).data_ctl = .out) :
    ∀ e ∈ (progressStageHandshake O st).evs,
      (∀ b r', e ≠ Ev.send .readReq b r') ∧ e ≠ Ev.ph .readSubmit := by
  intro e he
  have hd := drainHandshake_evs O st.peers 0 st.handshake_queued_list
  unfold progressStageHandshake at h he
  by_cases hc : (drainHandshake O st.peers 0 st.handshake_queued_list).ctl = .abort
  · simp only [hc, if_true] at h
    exact absurd h (by simp)
  · simp only [hc, if_false] at h he
    rcases List.mem_cons.1 he with h1 | h2
    · subst h1; exact ⟨by simp, by simp⟩
    · rcases List.mem_append.1 h2 with h3 | h4
      · obtain ⟨b, r, rfl, -⟩ := hd e h3
        exact ⟨by simp, by simp⟩
      · exact stageRxRnr_out_no_read O _ _ h e h4

theorem tick_phases_sub (st : EpSt) (O : Nat → SendRes)
    (postO shmPostO : Nat → Int) :
    List.Sublist (phasesOf (rxr_ep_progress_internal st O postO shmPostO).evs)
      canonicalPhases := by
  unfold rxr_ep_progress_internal canonicalPhases
  by_cases hshm : st.use_shm
  · simp only [hshm, if_true, phasesOf_append, List.cons_append, List.nil_append,
      phasesOf_cons_ph]
    exact .cons₂ _ (.cons₂ _ (.cons₂ _ (.cons₂ _ (stageHandshake_phases_sub O _))))
  · simp only [hshm, Bool.not_eq_true, Bool.false_eq_true, if_false,
      phasesOf_append, List.cons_append, List.nil_append, phasesOf_cons_ph,
      show phasesOf [] = [] from rfl, List.append_nil]
    exact .cons₂ _ (.cons _ (.cons₂ _ (.cons₂ _ (stageHandshake_phases_sub O _))))

theorem tick_phases_allOk (st : EpSt) (O : Nat → SendRes)
    (postO shmPostO : Nat → Int) (hshm : st.use_shm = true)
    (hO : ∀ k', ∃ sz, O k' = .ok sz)
    (hout : (rxr_ep_progress_internal st O postO shmPostO).data_ctl ≠ .out) :
    phasesOf (rxr_ep_progress_internal st O postO shmPostO).evs =
      canonicalPhases := by
  unfold rxr_ep_progress_internal at hout ⊢
  unfold canonicalPhases
  simp only [hshm, if_true, phasesOf_append, List.cons_append, List.nil_append,
    phasesOf_cons_ph] at hout ⊢
  rw [stageHandshake_phases_allOk O _ hO hout]

theorem tick_avoid (st : EpSt) (O : Nat → SendRes) (postO shmPostO : Nat → Int)
    (a : Nat) (ha : (st.peers a).in_backoff = true)
    (hlt : st.now < (st.peers a).backoff_begin + (st.peers a).backoff_wait) :
    ∀ e ∈ (rxr_ep_progress_internal st O postO shmPostO).evs,
      e.target ≠ some a := by
  intro e he
  have hkeep := timer_keep st.now st.peers st.peer_backoff_list a (by omega)
  unfold rxr_ep_progress_internal at he
  simp only [List.cons_append, List.nil_append, List.mem_append, List.mem_cons,
    List.not_mem_nil, List.mem_singleton, or_false, false_or] at he
  rcases he with h | ((hif | h) | h) | h
  · subst h; simp [Ev.target]
  · by_cases hshm : st.use_shm
    · simp only [hshm, if_true, List.mem_singleton] at hif
      subst hif; simp [Ev.target]
    · simp [hshm] at hif
  · subst h; simp [Ev.target]
  · subst h; simp [Ev.target]
  · refine stageHandshake_avoid O _ a ?_ e h
    show ((rxr_ep_check_peer_backoff_timer st.now st.peers
      st.peer_backoff_list).1 a).in_backoff = true
    rw [hkeep]
    exact ha

theorem tick_clear (st : EpSt) (O : Nat → SendRes) (postO shmPostO : Nat → Int)
    (a : Nat) (hmem : a ∈ st.peer_backoff_list)
    (hd : (st.peers a).backoff_begin + (st.peers a).backoff_wait ≤ st.now) :
    ((rxr_ep_progress_internal st O postO shmPostO).st.peers a).in_backoff = false ∧
      a ∉ (rxr_ep_progress_internal st O postO shmPostO).st.peer_backoff_list := by
  have hclear := timer_clear st.now st.peers st.peer_backoff_list a hmem hd
  constructor
  · have h1 : ((rxr_ep_progress_internal st O postO shmPostO).st.peers a).in_backoff =
        ((rxr_ep_check_peer_backoff_timer st.now st.peers st.peer_backoff_list).1
          a).in_backoff := by
      exact stageHandshake_backoff_pres O _ a
    rw [h1]
    exact hclear.1
  · have h2 : (rxr_ep_progress_internal st O postO shmPostO).st.peer_backoff_list =
        (rxr_ep_check_peer_backoff_timer st.now st.peers st.peer_backoff_list).2 := by
      exact stageHandshake_backoff_list O _
    rw [h2]
    exact hclear.2

theorem tick_out_no_read (st : EpSt) (O : Nat → SendRes)
    (postO shmPostO : Nat → Int)
    (h : (rxr_ep_progress_internal st O postO shmPostO).data_ctl = .out) :
    ∀ e ∈ (rxr_ep_progress_internal st O postO shmPostO).evs,
      (∀ b r', e ≠ Ev.send .readReq b r') ∧ e ≠ Ev.ph .readSubmit := by
  intro e he
  unfold rxr_ep_progress_internal at he
  simp only [List.cons_append, List.nil_append, List.mem_append, List.mem_cons,
    List.not_mem_nil, List.mem_singleton, or_false, false_or] at he
  rcases he with h1 | ((hif | h1) | h1) | h1
  · subst h1; exact ⟨by simp, by simp⟩
  · by_cases hshm : st.use_shm
    · simp only [hshm, if_true, List.mem_singleton] at hif
      subst hif; exact ⟨by simp, by simp⟩
    · simp [hshm] at hif
  · subst h1; exact ⟨by simp, by simp⟩
  · subst h1; exact ⟨by simp, by simp⟩
  · refine stageHandshake_out_no_read O _ ?_ e h1
    exact h

/-! ### Claim theorems -/

/-- C1: for every Transfer Request at creation, the credit grant computed by
`rxr_ep_set_tx_credit_request` equals
min(ceil(peer.available_credits / (peer.outstanding_ops + 1)),
ceil(total_len / max_payload_size)) floored at the configured minimum
(`rxr_env.tx_min_credits`), where outstanding_ops is the peer's outstanding
hardware TX operation count; in particular the divisor is outstanding_ops
plus one, biasing the grant downward for the new transfer. -/
theorem C1_credit_request_formula (env : CreditEnv) (peer : RdmPeerCredit)
    (tx : TxCredit) :
    ((rxr_ep_set_tx_credit_request env peer tx).2.2).credit_request =
      max (min (peer.tx_credits ⌈/⌉ (peer.efa_outstanding_tx_ops + 1))
               (tx.total_len ⌈/⌉ env.max_data_payload_size))
          env.tx_min_credits := by
  simp only [rxr_ep_set_tx_credit_request]
  split <;> rfl

/-- C2 counterexample: with `tx_min_credits = 2`, max payload 1, a peer
holding 1 credit with 0 outstanding ops, and a 1-byte transfer, the grant
is floored up to 2; the call succeeds yet the peer's credits stay at 1, so
it is false that success implies the credits were decremented by the
granted amount. -/
theorem C2_counterexample :
    ¬((rxr_ep_set_tx_credit_request ⟨2, 1⟩ ⟨1, 0⟩ ⟨1, 0⟩).1 ≠ 0 ∨
      ((rxr_ep_set_tx_credit_request ⟨2, 1⟩ ⟨1, 0⟩ ⟨1, 0⟩).2.1).tx_credits =
        1 - ((rxr_ep_set_tx_credit_request ⟨2, 1⟩ ⟨1, 0⟩ ⟨1, 0⟩).2.2).credit_request) := by
  decide

/-- C2 (amended): for every Transfer Request at creation, if the computed
credit grant is zero, `rxr_ep_set_tx_credit_request` returns `-FI_EAGAIN`
and leaves `peer.tx_credits` unchanged; otherwise it returns success, and
`peer.tx_credits` is decremented by the granted amount exactly when the
peer has at least that many credits available, and left unchanged
otherwise (in particular it is left unchanged whenever the
minimum-credit floor raises the grant above the available credits). -/
theorem C2_credit_request_result (env : CreditEnv) (peer : RdmPeerCredit)
    (tx : TxCredit) (ret : Int) (peer' : RdmPeerCredit) (tx' : TxCredit)
    (h : rxr_ep_set_tx_credit_request env peer tx = (ret, peer', tx')) :
    (ret = -FI_EAGAIN ↔ tx'.credit_request = 0) ∧
    (tx'.credit_request = 0 → peer'.tx_credits = peer.tx_credits) ∧
    (tx'.credit_request ≠ 0 → ret = 0) ∧
    (tx'.credit_request ≤ peer.tx_credits →
      peer'.tx_credits = peer.tx_credits - tx'.credit_request) ∧
    (peer.tx_credits < tx'.credit_request →
      peer'.tx_credits = peer.tx_credits) := by
  simp only [rxr_ep_set_tx_credit_request] at h
  split at h
  next hr0 =>
    split at h
    next hle =>
      injection h with h1 h23
      injection h23 with h2 h3
      subst h1 h2 h3
      refine ⟨by simp [hr0, FI_EAGAIN], fun _ => by simp [hr0], ?_, ?_, ?_⟩
      · intro hne; exact absurd hr0 hne
      · intro _; simp
      · intro hlt; simp at hlt ⊢; omega
    next hle =>
      injection h with h1 h23
      injection h23 with h2 h3
      subst h1 h2 h3
      exact absurd (hr0 ▸ Nat.zero_le _) hle
  next hr0 =>
    split at h
    next hle =>
      injection h with h1 h23
      injection h23 with h2 h3
      subst h1 h2 h3
      refine ⟨?_, fun h0 => absurd h0 hr0, fun _ => rfl, fun _ => rfl, ?_⟩
      · constructor
        · intro habs; exact absurd habs (by decide)
        · intro h0; exact absurd h0 hr0
      · intro hlt; simp at hlt ⊢; omega
    next hle =>
      injection h with h1 h23
      injection h23 with h2 h3
      subst h1 h2 h3
      refine ⟨?_, fun h0 => absurd h0 hr0, fun _ => rfl, ?_, fun _ => rfl⟩
      · constructor
        · intro habs; exact absurd habs (by decide)
        · intro h0; exact absurd h0 hr0
      · intro hle'; simp at hle'; omega

/-- C2 witness: concrete success-with-decrement, zero-grant, and
floor-above-credits instances of the amended theorem. -/
theorem C2_credit_request_result_witness :
    ((rxr_ep_set_tx_credit_request ⟨2, 1⟩ ⟨5, 0⟩ ⟨10, 0⟩).2.1).tx_credits = 5 - 5 ∧
    (rxr_ep_set_tx_credit_request ⟨0, 1⟩ ⟨0, 0⟩ ⟨0, 0⟩).1 = -FI_EAGAIN ∧
    ((rxr_ep_set_tx_credit_request ⟨2, 1⟩ ⟨1, 0⟩ ⟨1, 0⟩).2.1).tx_credits = 1 := by
  refine ⟨?_, ?_, ?_⟩
  · exact (C2_credit_request_result ⟨2, 1⟩ ⟨5, 0⟩ ⟨10, 0⟩ _ _ _ rfl).2.2.2.1 (by decide)
  · exact (C2_credit_request_result ⟨0, 1⟩ ⟨0, 0⟩ ⟨0, 0⟩ _ _ _ rfl).1.2 (by decide)
  · exact (C2_credit_request_result ⟨2, 1⟩ ⟨1, 0⟩ ⟨1, 0⟩ _ _ _ rfl).2.2.2.2 (by decide)

/-- C9: for every operation-entry allocation (Transfer Request via
`rxr_ep_alloc_tx_entry`, Receive Request via `rxr_ep_alloc_rx_entry`), the
call returns the exhausted indication (`none`) exactly when the backing
entry pool is empty, and otherwise returns a freshly initialized entry and
consumes one pool slot; with a pool of capacity 2, three consecutive
allocations with no intervening release succeed, succeed, then fail, and
an allocation after a release succeeds again. -/
theorem C9_entry_alloc_exhaustion :
    (∀ pool : OfiBufPool, ∀ addr op : Nat,
      (rxr_ep_alloc_tx_entry pool addr op = none ↔ pool.max_cnt ≤ pool.used)) ∧
    (∀ pool : OfiBufPool, ∀ addr op : Nat,
      (rxr_ep_alloc_rx_entry pool addr op = none ↔ pool.max_cnt ≤ pool.used)) ∧
    (∀ pool : OfiBufPool, ∀ addr op : Nat, ∀ p' : OfiBufPool, ∀ e : TxEntryNew,
      rxr_ep_alloc_tx_entry pool addr op = some (p', e) →
        e = { state := RXR_TX_REQ, addr := addr, op := op } ∧
          p'.used = pool.used + 1) ∧
    (∀ pool : OfiBufPool, ∀ addr op : Nat, ∀ p' : OfiBufPool, ∀ e : RxEntryNew,
      rxr_ep_alloc_rx_entry pool addr op = some (p', e) →
        e = { state := RXR_RX_INIT, addr := addr, op := op } ∧
          p'.used = pool.used + 1) ∧
    (rxr_ep_alloc_tx_entry ⟨2, 0⟩ 4 0 =
        some (⟨2, 1⟩, { state := RXR_TX_REQ, addr := 4, op := 0 }) ∧
      rxr_ep_alloc_tx_entry ⟨2, 1⟩ 4 0 =
        some (⟨2, 2⟩, { state := RXR_TX_REQ, addr := 4, op := 0 }) ∧
      rxr_ep_alloc_tx_entry ⟨2, 2⟩ 4 0 = none ∧
      rxr_ep_alloc_tx_entry (ofi_buf_free ⟨2, 2⟩) 4 0 =
        some (⟨2, 2⟩, { state := RXR_TX_REQ, addr := 4, op := 0 })) := by
  refine ⟨?_, ?_, ?_, ?_, by decide⟩
  · intro pool addr op
    unfold rxr_ep_alloc_tx_entry ofi_buf_alloc
    by_cases hlt : pool.used < pool.max_cnt <;> simp [hlt] <;> omega
  · intro pool addr op
    unfold rxr_ep_alloc_rx_entry ofi_buf_alloc
    by_cases hlt : pool.used < pool.max_cnt <;> simp [hlt] <;> omega
  · intro pool addr op p' e h
    unfold rxr_ep_alloc_tx_entry ofi_buf_alloc at h
    by_cases hlt : pool.used < pool.max_cnt <;> simp [hlt] at h
    exact ⟨h.2.symm, by rw [← h.1]⟩
  · intro pool addr op p' e h
    unfold rxr_ep_alloc_rx_entry ofi_buf_alloc at h
    by_cases hlt : pool.used < pool.max_cnt <;> simp [hlt] at h
    exact ⟨h.2.symm, by rw [← h.1]⟩

/-- C9 witness: the exhaustion criterion applied to a full capacity-2 pool
and the success criterion applied to a fresh one. -/
theorem C9_entry_alloc_exhaustion_witness :
    rxr_ep_alloc_tx_entry ⟨2, 2⟩ 0 0 = none ∧
    ({ state := RXR_TX_REQ, addr := 9, op := 3 } : TxEntryNew) =
      { state := RXR_TX_REQ, addr := 9, op := 3 } := by
  refine ⟨?_, ?_⟩
  · exact (C9_entry_alloc_exhaustion.1 ⟨2, 2⟩ 0 0).2 (by decide)
  · exact (C9_entry_alloc_exhaustion.2.2.1 ⟨2, 0⟩ 9 3 ⟨2, 1⟩ _ rfl).1

/-- C10: the option accessors form a round trip at the public interface:
`rxr_ep_setopt` with level `FI_OPT_ENDPOINT`, name `FI_OPT_MIN_MULTI_RECV`
and a value length of at least `sizeof(size_t)` stores the value, and a
subsequent `rxr_ep_getopt` for the same option returns exactly that value
with the output length `sizeof(size_t)`; any other (level, name) pair
makes both calls return `-FI_ENOPROTOOPT` with the stored value unchanged,
and a set with a value length smaller than `sizeof(size_t)` returns
`-FI_EINVAL` with the stored value unchanged. -/
theorem C10_opt_round_trip (ep : RxrEpOpt) (v optlen : Nat)
    (level optname : Int) :
    (sizeof_size_t ≤ optlen →
      rxr_ep_setopt ep FI_OPT_ENDPOINT FI_OPT_MIN_MULTI_RECV v optlen =
        (0, { min_multi_recv_size := v }) ∧
      rxr_ep_getopt { min_multi_recv_size := v } FI_OPT_ENDPOINT
          FI_OPT_MIN_MULTI_RECV = (0, some (v, sizeof_size_t))) ∧
    (¬(level = FI_OPT_ENDPOINT ∧ optname = FI_OPT_MIN_MULTI_RECV) →
      rxr_ep_setopt ep level optname v optlen = (-FI_ENOPROTOOPT, ep) ∧
      rxr_ep_getopt ep level optname = (-FI_ENOPROTOOPT, none)) ∧
    (optlen < sizeof_size_t →
      rxr_ep_setopt ep FI_OPT_ENDPOINT FI_OPT_MIN_MULTI_RECV v optlen =
        (-FI_EINVAL, ep)) := by
  refine ⟨?_, ?_, ?_⟩
  · intro hle
    constructor
    · unfold rxr_ep_setopt
      simp [Nat.not_lt.2 hle]
    · unfold rxr_ep_getopt
      simp
  · intro hne
    have hor : level ≠ FI_OPT_ENDPOINT ∨ optname ≠ FI_OPT_MIN_MULTI_RECV := by
      tauto
    constructor
    · unfold rxr_ep_setopt
      simp [hor]
    · unfold rxr_ep_getopt
      simp [hor]
  · intro hlt
    unfold rxr_ep_setopt
    simp [hlt]

/-- C10 witness: concrete round-trip, unknown-option and short-length
instances. -/
theorem C10_opt_round_trip_witness :
    rxr_ep_setopt ⟨0⟩ FI_OPT_ENDPOINT FI_OPT_MIN_MULTI_RECV 99 8 = (0, ⟨99⟩) ∧
    rxr_ep_getopt ⟨99⟩ FI_OPT_ENDPOINT FI_OPT_MIN_MULTI_RECV = (0, some (99, 8)) ∧
    rxr_ep_setopt ⟨7⟩ 1 5 99 8 = (-FI_ENOPROTOOPT, ⟨7⟩) ∧
    rxr_ep_getopt ⟨7⟩ 1 5 = (-FI_ENOPROTOOPT, none) ∧
    rxr_ep_setopt ⟨7⟩ FI_OPT_ENDPOINT FI_OPT_MIN_MULTI_RECV 99 4 = (-FI_EINVAL, ⟨7⟩) := by
  refine ⟨?_, ?_, ?_, ?_, ?_⟩
  · exact ((C10_opt_round_trip ⟨0⟩ 99 8 1 5).1 (by decide)).1
  · exact ((C10_opt_round_trip ⟨99⟩ 99 8 1 5).1 (by decide)).2
  · exact ((C10_opt_round_trip ⟨7⟩ 99 8 1 5).2.1 (by decide)).1
  · exact ((C10_opt_round_trip ⟨7⟩ 99 8 1 5).2.1 (by decide)).2
  · exact (C10_opt_round_trip ⟨7⟩ 99 4 1 5).2.2 (by decide)

/-- C6 (code evaluation): cancelling a matched Receive Request sets the
`RXR_RECV_CANCEL` mark and always writes an `FI_ECANCELED` error completion
carrying the original user context, flags and tag; entries in `INIT`,
`UNEXP` or `MATCHED` state are released; an entry in `RECV` state is not
released, only marked; but an entry in `RXR_RX_QUEUED_CTRL` state — also
past `MATCHED` — is released as well, because the release test
`state & (RXR_RX_INIT | RXR_RX_UNEXP | RXR_RX_MATCHED)` is a bitwise AND
over sequentially numbered states, contradicting the code's own comment
that states past `MATCHED` are merely marked for completion
suppression. -/
theorem C6_cancel_recv_eval :
    (rxr_ep_cancel_recv [⟨7, RXR_RX_INIT, false, 3, 5⟩] 7).released = true ∧
    (rxr_ep_cancel_recv [⟨7, RXR_RX_UNEXP, false, 3, 5⟩] 7).released = true ∧
    (rxr_ep_cancel_recv [⟨7, RXR_RX_MATCHED, false, 3, 5⟩] 7).released = true ∧
    (rxr_ep_cancel_recv [⟨7, RXR_RX_MATCHED, false, 3, 5⟩] 7).err_written =
      some ⟨7, 5, 3, FI_ECANCELED⟩ ∧
    (rxr_ep_cancel_recv [⟨7, RXR_RX_UNEXP, false, 3, 5⟩] 7).list = [] ∧
    (rxr_ep_cancel_recv [⟨7, RXR_RX_RECV, false, 3, 5⟩] 7).released = false ∧
    (rxr_ep_cancel_recv [⟨7, RXR_RX_RECV, false, 3, 5⟩] 7).marked =
      some ⟨7, RXR_RX_RECV, true, 3, 5⟩ ∧
    (rxr_ep_cancel_recv [⟨8, RXR_RX_INIT, false, 3, 5⟩] 7).found = false ∧
    (rxr_ep_cancel_recv [⟨8, RXR_RX_INIT, false, 3, 5⟩] 7).err_written = none ∧
    RXR_RX_MATCHED < RXR_RX_QUEUED_CTRL ∧
    (rxr_ep_cancel_recv [⟨7, RXR_RX_QUEUED_CTRL, false, 3, 5⟩] 7).released = true := by
  decide

/-- C7 counterexample: in zero-copy-receive mode, from the reachable
counter state (posted = 0, pending = 1) — the state after the single
internal buffer has been consumed — the replenishment step posts one
buffer even though the pending count is nonzero, so it is false that a
post happens only when zero are posted and zero are pending; and from
(posted = 0, pending = 2) it posts two buffers, so the literal "at most
one" does not hold for unconstrained counters either. -/
theorem C7_counterexample :
    ((rxr_ep_progress_post_internal_rx_pkts ⟨true, false, 0, 0, 0⟩ wPost wPost
        ⟨0, 1, 0, 0, 0⟩).efa_posts).length = 1 ∧
    (0 : Nat) < 1 ∧
    ((rxr_ep_progress_post_internal_rx_pkts ⟨true, false, 0, 0, 0⟩ wPost wPost
        ⟨0, 2, 0, 0, 0⟩).efa_posts).length = 2 := by
  decide

/-- C7 (amended): in zero-copy-receive mode, the replenishment step never
posts an internal buffer while one is already posted; under the
step-preserved invariant posted + pending <= 1 it posts at most one
buffer and posts only when none are posted, re-establishing the
invariant; and when both counters are zero it schedules and attempts
exactly one post. -/
theorem C7_zcpy_replenish (P : RxPostParams) (post shmPost : Nat → Int)
    (st : RxPostSt) (r : RxPostRes)
    (hz : P.use_zcpy_rx = true)
    (h : rxr_ep_progress_post_internal_rx_pkts P post shmPost st = r) :
    (0 < st.efa_rx_pkts_posted → r.efa_posts = []) ∧
    (st.efa_rx_pkts_posted + st.efa_rx_pkts_to_post ≤ 1 →
      r.efa_posts.length ≤ 1 ∧
      (r.efa_posts ≠ [] → st.efa_rx_pkts_posted = 0) ∧
      r.st.efa_rx_pkts_posted + r.st.efa_rx_pkts_to_post ≤ 1) ∧
    (st.efa_rx_pkts_posted = 0 ∧ st.efa_rx_pkts_to_post = 0 →
      r.efa_posts.length = 1) := by
  subst h
  rcases st with ⟨p0, t0, sp0, st0, av0⟩
  by_cases hp : p0 = 0
  · subst hp
    by_cases ht : t0 = 0
    · subst ht
      by_cases hf : post 0 = 0
      · by_cases hshm : P.use_shm
        · by_cases hserr : (bulkPostLoop shmPost st0 st0 0).2 = 0 <;>
            simp [rxr_ep_progress_post_internal_rx_pkts, hz,
              rxr_ep_bulk_post_internal_rx_pkts, bulkPostLoop, postedCount,
              hf, hshm, hserr]
        · simp [rxr_ep_progress_post_internal_rx_pkts, hz,
            rxr_ep_bulk_post_internal_rx_pkts, bulkPostLoop, postedCount,
            hf, hshm]
      · simp [rxr_ep_progress_post_internal_rx_pkts, hz,
          rxr_ep_bulk_post_internal_rx_pkts, bulkPostLoop, postedCount, hf]
    · refine ⟨by simp, ?_, fun hc => absurd hc.2 ht⟩
      intro hinv
      simp only [RxPostSt.mk.injEq] at hinv
      have ht1 : t0 = 1 := by simp at hinv; omega
      subst ht1
      by_cases hf : post 0 = 0
      · by_cases hshm : P.use_shm
        · by_cases hserr : (bulkPostLoop shmPost st0 st0 0).2 = 0 <;>
            simp [rxr_ep_progress_post_internal_rx_pkts, hz,
              rxr_ep_bulk_post_internal_rx_pkts, bulkPostLoop, postedCount,
              hf, hshm, hserr]
        · simp [rxr_ep_progress_post_internal_rx_pkts, hz,
            rxr_ep_bulk_post_internal_rx_pkts, bulkPostLoop, postedCount,
            hf, hshm]
      · simp [rxr_ep_progress_post_internal_rx_pkts, hz,
          rxr_ep_bulk_post_internal_rx_pkts, bulkPostLoop, postedCount, hf]
  · have hpos : 0 < p0 := Nat.pos_of_ne_zero hp
    have ht0 : ∀ t1, t1 = 0 →
        rxr_ep_bulk_post_internal_rx_pkts post t1 = ([], 0) := by
      intro t1 h1; subst h1; rfl
    by_cases ht : 0 < t0
    · by_cases hshm : P.use_shm
      · by_cases hserr : (bulkPostLoop shmPost st0 st0 0).2 = 0 <;>
          simp [rxr_ep_progress_post_internal_rx_pkts, hz, hp, hpos, ht,
            rxr_ep_bulk_post_internal_rx_pkts, bulkPostLoop, postedCount,
            hshm, hserr] <;> omega
      · simp [rxr_ep_progress_post_internal_rx_pkts, hz, hp, hpos, ht,
          rxr_ep_bulk_post_internal_rx_pkts, bulkPostLoop, postedCount, hshm] <;>
          omega
    · have ht' : t0 = 0 := by omega
      subst ht'
      by_cases hshm : P.use_shm
      · by_cases hserr : (bulkPostLoop shmPost st0 st0 0).2 = 0 <;>
          simp [rxr_ep_progress_post_internal_rx_pkts, hz, hp, hpos,
            rxr_ep_bulk_post_internal_rx_pkts, bulkPostLoop, postedCount,
            hshm, hserr] <;> omega
      · simp [rxr_ep_progress_post_internal_rx_pkts, hz, hp, hpos,
          rxr_ep_bulk_post_internal_rx_pkts, bulkPostLoop, postedCount, hshm] <;>
          omega

/-- C7 witness: the amended theorem applied at the three reachable counter
states. -/
theorem C7_zcpy_replenish_witness :
    (rxr_ep_progress_post_internal_rx_pkts ⟨true, false, 0, 0, 0⟩ wPost wPost
      ⟨1, 0, 0, 0, 0⟩).efa_posts = [] ∧
    ((rxr_ep_progress_post_internal_rx_pkts ⟨true, false, 0, 0, 0⟩ wPost wPost
      ⟨0, 1, 0, 0, 0⟩).efa_posts).length ≤ 1 ∧
    ((rxr_ep_progress_post_internal_rx_pkts ⟨true, false, 0, 0, 0⟩ wPost wPost
      ⟨0, 0, 0, 0, 0⟩).efa_posts).length = 1 := by
  refine ⟨?_, ?_, ?_⟩
  · exact (C7_zcpy_replenish ⟨true, false, 0, 0, 0⟩ wPost wPost
      ⟨1, 0, 0, 0, 0⟩ _ rfl rfl).1 (by decide)
  · exact ((C7_zcpy_replenish ⟨true, false, 0, 0, 0⟩ wPost wPost
      ⟨0, 1, 0, 0, 0⟩ _ rfl rfl).2.1 (by decide)).1
  · exact (C7_zcpy_replenish ⟨true, false, 0, 0, 0⟩ wPost wPost
      ⟨0, 0, 0, 0, 0⟩ _ rfl rfl).2.2 (by decide)

theorem bulkPostLoop_mem (post : Nat → Int) (n : Nat) :
    ∀ rem i, rem + i ≤ n → ∀ p ∈ (bulkPostLoop post n rem i).1,
      i ≤ p.1 ∧ p.1 < n ∧ (p.2 = true ↔ p.1 ≠ n - 1) := by
  intro rem
  induction rem with
  | zero => intro i h p hp; simp [bulkPostLoop] at hp
  | succ m ih =>
    intro i h p hp
    unfold bulkPostLoop at hp
    by_cases he : post i ≠ 0
    · rw [if_pos he] at hp
      rcases List.mem_singleton.1 hp with rfl
      exact ⟨le_refl _, by omega, by simp⟩
    · rw [if_neg he] at hp
      rcases List.mem_cons.1 hp with rfl | hmem
      · exact ⟨le_refl _, by omega, by simp⟩
      · have := ih (i + 1) (by omega) p hmem
        exact ⟨by omega, this.2.1, this.2.2⟩

theorem bulkPostLoop_all_ok (post : Nat → Int) (n : Nat) :
    ∀ rem i, (∀ j, i ≤ j → j < i + rem → post j = 0) →
      (bulkPostLoop post n rem i).1.map Prod.fst = List.range' i rem ∧
      (bulkPostLoop post n rem i).2 = 0 := by
  intro rem
  induction rem with
  | zero => intro i h; simp [bulkPostLoop, List.range']
  | succ m ih =>
    intro i h
    have h0 : post i = 0 := h i (le_refl i) (by omega)
    have hrec := ih (i + 1) (fun j hj1 hj2 => h j (by omega) (by omega))
    unfold bulkPostLoop
    rw [if_neg (by simp [h0])]
    simp only [List.map_cons, List.range']
    exact ⟨by rw [hrec.1], hrec.2⟩

theorem bulkPostLoop_first_fail (post : Nat → Int) (n : Nat) :
    ∀ rem i k, i ≤ k → k < i + rem → post k ≠ 0 →
      (∀ j, i ≤ j → j < k → post j = 0) →
      (bulkPostLoop post n rem i).2 = post k ∧
      (bulkPostLoop post n rem i).1.length = k - i + 1 := by
  intro rem
  induction rem with
  | zero => intro i k h1 h2 _ _; omega
  | succ m ih =>
    intro i k h1 h2 hk hprev
    by_cases hik : k = i
    · subst hik
      unfold bulkPostLoop
      rw [if_pos hk]
      exact ⟨rfl, by simp⟩
    · have hlt : i < k := lt_of_le_of_ne h1 (Ne.symm hik)
      have h0 : post i = 0 := hprev i (le_refl _) hlt
      have hrec := ih (i + 1) k (by omega) (by omega) hk
        (fun j hj1 hj2 => hprev j (by omega) hj2)
      unfold bulkPostLoop
      rw [if_neg (by simp [h0])]
      simp only [List.length_cons]
      exact ⟨hrec.1, by rw [hrec.2]; omega⟩

/-- C8: for every bulk repost of N internal receive buffers, the `FI_MORE`
batching hint is passed on every post except the last — every attempted
post with index below N-1 carries the hint and a post with index N-1 does
not; when all posts succeed the loop attempts exactly the indices
0..N-1 in order and returns 0; a single-buffer post carries no hint; and
the loop stops at the first post that fails, returning that error after
exactly k+1 attempts when index k is the first failure. -/
theorem C8_bulk_post_more_hint :
    (∀ post : Nat → Int, ∀ n : Nat, ∀ p ∈ (rxr_ep_bulk_post_internal_rx_pkts post n).1,
      p.1 < n ∧ (p.2 = true ↔ p.1 < n - 1)) ∧
    (∀ post : Nat → Int, ∀ n : Nat, (∀ j, j < n → post j = 0) →
      (rxr_ep_bulk_post_internal_rx_pkts post n).1.map Prod.fst = List.range n ∧
      (rxr_ep_bulk_post_internal_rx_pkts post n).2 = 0) ∧
    (∀ post : Nat → Int, post 0 = 0 →
      (rxr_ep_bulk_post_internal_rx_pkts post 1).1 = [(0, false)]) ∧
    (∀ post : Nat → Int, ∀ n k : Nat, k < n → post k ≠ 0 →
      (∀ j, j < k → post j = 0) →
      (rxr_ep_bulk_post_internal_rx_pkts post n).2 = post k ∧
      (rxr_ep_bulk_post_internal_rx_pkts post n).1.length = k + 1) := by
  refine ⟨?_, ?_, ?_, ?_⟩
  · intro post n p hp
    have := bulkPostLoop_mem post n n 0 (by omega) p hp
    refine ⟨this.2.1, ?_⟩
    rw [this.2.2]
    omega
  · intro post n hall
    have := bulkPostLoop_all_ok post n n 0 (fun j _ hj2 => hall j (by omega))
    rw [List.range_eq_range']
    exact this
  · intro post h0
    unfold rxr_ep_bulk_post_internal_rx_pkts bulkPostLoop
    simp [h0, bulkPostLoop]
  · intro post n k hkn hk hprev
    have := bulkPostLoop_first_fail post n n 0 k (by omega) (by omega) hk
      (fun j _ hj2 => hprev j hj2)
    simpa using this

/-- C8 witness: the hint pattern for a three-buffer repost and the
stop-at-first-failure behavior when the second post fails. -/
theorem C8_bulk_post_more_hint_witness :
    ((0, true) ∈ (rxr_ep_bulk_post_internal_rx_pkts wPost 3).1 → True) ∧
    (rxr_ep_bulk_post_internal_rx_pkts wPost 3).1.map Prod.fst = List.range 3 ∧
    (rxr_ep_bulk_post_internal_rx_pkts wPost 3).2 = 0 ∧
    (rxr_ep_bulk_post_internal_rx_pkts wPost 1).1 = [(0, false)] ∧
    (rxr_ep_bulk_post_internal_rx_pkts (fun j => if j = 1 then -FI_ENOMEM else 0) 3).2 =
      -FI_ENOMEM ∧
    (rxr_ep_bulk_post_internal_rx_pkts (fun j => if j = 1 then -FI_ENOMEM else 0) 3).1.length = 2 := by
  have h2 := (C8_bulk_post_more_hint.2.1 wPost 3 (fun j _ => rfl))
  have h3 := C8_bulk_post_more_hint.2.2.1 wPost rfl
  have h4 := C8_bulk_post_more_hint.2.2.2 (fun j => if j = 1 then -FI_ENOMEM else 0) 3 1
    (by decide) (by decide) (by intro j hj; interval_cases j <;> decide)
  refine ⟨fun _ => trivial, h2.1, h2.2, h3, by simpa using h4.1, h4.2⟩

/-- C3: for every peer in backoff, no progress-engine step of a tick
(handshake retransmission, queued-RNR/queued-control drains, data-packet
sending, read-request submission) attempts a send toward that peer while
the current time is less than the peer's backoff start time plus its wait
duration; once a tick observes that the wait interval has elapsed, the
backoff-timer check clears the peer's in-backoff flag and removes it from
the backoff list so it rejoins the normal drain rotation. -/
theorem C3_backoff_skip_and_expiry (st : EpSt) (O : Nat → SendRes)
    (postO shmPostO : Nat → Int) (a : Nat) :
    ((st.peers a).in_backoff = true →
      st.now < (st.peers a).backoff_begin + (st.peers a).backoff_wait →
      ∀ e ∈ (rxr_ep_progress_internal st O postO shmPostO).evs,
        e.target ≠ some a) ∧
    (a ∈ st.peer_backoff_list →
      (st.peers a).backoff_begin + (st.peers a).backoff_wait ≤ st.now →
      ((rxr_ep_progress_internal st O postO shmPostO).st.peers a).in_backoff =
          false ∧
        a ∉ (rxr_ep_progress_internal st O postO shmPostO).st.peer_backoff_list) :=
  ⟨tick_avoid st O postO shmPostO a, tick_clear st O postO shmPostO a⟩

/-- C3 witness: in `wStSkip` (peer 0 in backoff, now = 7 < 15) the tick's
queued-RNR send toward peer 1 does not target peer 0; in `wStExpire`
(now = 20 >= 15) the tick clears peer 0's backoff flag and removes it
from the backoff list. -/
theorem C3_backoff_skip_and_expiry_witness :
    (Ev.send .rxRnr 1 (.ok 0)).target ≠ some 0 ∧
    ((rxr_ep_progress_internal wStExpire wOk wPost wPost).st.peers 0).in_backoff =
        false ∧
    0 ∉ (rxr_ep_progress_internal wStExpire wOk wPost wPost).st.peer_backoff_list := by
  refine ⟨?_, ?_, ?_⟩
  · exact (C3_backoff_skip_and_expiry wStSkip wOk wPost wPost 0).1 (by decide)
      (by decide) (Ev.send .rxRnr 1 (.ok 0)) (by decide)
  · exact ((C3_backoff_skip_and_expiry wStExpire wOk wPost wPost 0).2 (by decide)
      (by decide)).1
  · exact ((C3_backoff_skip_and_expiry wStExpire wOk wPost wPost 0).2 (by decide)
      (by decide)).2

/-- C4: in the data-sending step of a progress tick, a new data packet is
built and posted for a Transfer Request only while that entry's window is
greater than zero, the endpoint's outstanding-hardware-op counter is
strictly below its configured maximum, and the entry's peer is not in
backoff (given the counter starts at or below the maximum); and when the
global ceiling is reached, the engine stops the entire data-sending walk
for that tick (appending further pending entries changes nothing) and
skips the read-submission walk altogether. -/
theorem C4_data_send_guards :
    (∀ (peers : Nat → RdmPeer) (mps maxo : Nat) (O : Nat → SendRes)
        (outst k : Nat) (l : List TxPend), outst ≤ maxo →
      ∀ (a w o : Nat) (r : SendRes),
        Ev.data a w o r ∈ (dataSendWalk peers mps maxo O outst k l).evs →
        0 < w ∧ o < maxo ∧ (peers a).in_backoff = false) ∧
    (∀ (peers : Nat → RdmPeer) (mps maxo : Nat) (O : Nat → SendRes)
        (outst k : Nat) (l l₂ : List TxPend),
      (dataSendWalk peers mps maxo O outst k l).ctl = .out →
      (dataSendWalk peers mps maxo O outst k (l ++ l₂)).evs =
        (dataSendWalk peers mps maxo O outst k l).evs ∧
      (dataSendWalk peers mps maxo O outst k (l ++ l₂)).ctl = .out) ∧
    (∀ (st : EpSt) (O : Nat → SendRes) (postO shmPostO : Nat → Int),
      (rxr_ep_progress_internal st O postO shmPostO).data_ctl = .out →
      Ev.ph .readSubmit ∉ (rxr_ep_progress_internal st O postO shmPostO).evs ∧
      ∀ (b : Nat) (r' : SendRes),
        Ev.send .readReq b r' ∉ (rxr_ep_progress_internal st O postO shmPostO).evs) := by
  refine ⟨?_, ?_, ?_⟩
  · intro peers mps maxo O outst k l hout a w o r hmem
    obtain ⟨a', w', o', r', heq, h0, hlt, hb⟩ :=
      dataSendWalk_guard peers mps maxo O outst k l hout _ hmem
    injection heq with ha hw ho hr
    subst ha hw ho
    exact ⟨h0, hlt, hb⟩
  · intro peers mps maxo O outst k l l₂ hctl
    have := dataSendWalk_out_append peers mps maxo O outst k l l₂ hctl
    exact ⟨this.2.1, this.2.2.2⟩
  · intro st O postO shmPostO hctl
    constructor
    · intro hmem
      exact (tick_out_no_read st O postO shmPostO hctl _ hmem).2 rfl
    · intro b r' hmem
      exact (tick_out_no_read st O postO shmPostO hctl _ hmem).1 b r' rfl

/-- C4 witness: the guard conditions at a concrete posted data packet, the
walk-stops-entirely equations at a concrete full TX queue, and the
skipped read walk of the `wStOut` tick. -/
theorem C4_data_send_guards_witness :
    ((0 : Nat) < 3 ∧ (0 : Nat) < 4 ∧ (wPeers 1).in_backoff = false) ∧
    (dataSendWalk wPeers 2 1 wOk 1 0
        ([{ id := 2, addr := 1, window := 3, send_more := false }] ++
          [{ id := 6, addr := 1, window := 1, send_more := false }])).evs =
      (dataSendWalk wPeers 2 1 wOk 1 0
        [{ id := 2, addr := 1, window := 3, send_more := false }]).evs ∧
    (dataSendWalk wPeers 2 1 wOk 1 0
        ([{ id := 2, addr := 1, window := 3, send_more := false }] ++
          [{ id := 6, addr := 1, window := 1, send_more := false }])).ctl = .out ∧
    Ev.ph .readSubmit ∉ (rxr_ep_progress_internal wStOut wOk wPost wPost).evs ∧
    Ev.send .readReq 9 (.ok 0) ∉ (rxr_ep_progress_internal wStOut wOk wPost wPost).evs := by
  refine ⟨?_, ?_, ?_, ?_, ?_⟩
  · exact C4_data_send_guards.1 wPeers 2 4 wOk 0 0 wTxl (by decide) 1 3 0 (.ok 0)
      (by decide)
  · exact (C4_data_send_guards.2.1 wPeers 2 1 wOk 1 0
      [{ id := 2, addr := 1, window := 3, send_more := false }]
      [{ id := 6, addr := 1, window := 1, send_more := false }] (by decide)).1
  · exact (C4_data_send_guards.2.1 wPeers 2 1 wOk 1 0
      [{ id := 2, addr := 1, window := 3, send_more := false }]
      [{ id := 6, addr := 1, window := 1, send_more := false }] (by decide)).2
  · exact (C4_data_send_guards.2.2 wStOut wOk wPost wPost (by decide)).1
  · exact (C4_data_send_guards.2.2 wStOut wOk wPost wPost (by decide)).2 9 (.ok 0)

/-- C5: every progress tick performs its phases in the spec's order — the
phase markers of any tick trace form a sublist of the canonical order
(hardware poll, loopback poll, receive-buffer replenishment, backoff
expiry, handshake drain, rx-RNR, rx-ctrl, tx-RNR, tx-ctrl drains, data
sending, read submission, descriptor flush), and a tick with the loopback
source enabled whose sends all succeed and whose data walk does not hit
the TX ceiling performs exactly that order; the queued-list drains stop
for the remainder of their list the moment a send returns `-FI_EAGAIN`
(an eagain attempt is the last event of the drain); and the hardware
completion source is polled a bounded number of times
(`rxr_env.efa_cq_read_size` iterations at most). -/
theorem C5_progress_tick_order :
    (∀ (st : EpSt) (O : Nat → SendRes) (postO shmPostO : Nat → Int),
      List.Sublist (phasesOf (rxr_ep_progress_internal st O postO shmPostO).evs)
        canonicalPhases) ∧
    (∀ (st : EpSt) (O : Nat → SendRes) (postO shmPostO : Nat → Int),
      st.use_shm = true → (∀ k, ∃ sz, O k = SendRes.ok sz) →
      (rxr_ep_progress_internal st O postO shmPostO).data_ctl ≠ .out →
      phasesOf (rxr_ep_progress_internal st O postO shmPostO).evs =
        canonicalPhases) ∧
    (∀ (kind : SendKind) (O : Nat → SendRes) (peers : Nat → RdmPeer) (k : Nat)
        (l : List QEntry) (l₁ l₂ : List Ev) (kind' : SendKind) (a : Nat),
      (drainQueued kind O peers k l).evs = l₁ ++ Ev.send kind' a .eagain :: l₂ →
      l₂ = []) ∧
    (∀ (c : Nat → IbvPollRes) (n i : Nat), rdm_ep_poll_ibv_cq_calls c n i ≤ n) :=
  ⟨tick_phases_sub, tick_phases_allOk, drainQueued_eagain_last,
   rdm_ep_poll_ibv_cq_calls_le⟩

/-- C5 witness: the `wStSkip` tick with an all-success oracle runs every
phase in canonical order; an eagain-terminated drain instance; a bounded
poll instance. -/
theorem C5_progress_tick_order_witness :
    phasesOf (rxr_ep_progress_internal wStSkip wOk wPost wPost).evs =
      canonicalPhases ∧
    ([] : List Ev) = [] ∧
    rdm_ep_poll_ibv_cq_calls (fun _ => .good) 5 0 ≤ 5 := by
  refine ⟨?_, ?_, ?_⟩
  · exact C5_progress_tick_order.2.1 wStSkip wOk wPost wPost rfl
      (fun _ => ⟨0, rfl⟩) (by decide)
  · exact C5_progress_tick_order.2.2.1 .rxRnr (fun _ => .eagain) wPeers 0
      [{ id := 1, addr := 1 }] [] [] .rxRnr 1 (by decide)
  · exact C5_progress_tick_order.2.2.2 (fun _ => .good) 5 0

end Rxr
